import Mathlib

/-!
# github-activity: fetch, decode and print a user's recent GitHub events

A shallow embedding of `github_activity/github_activity.go` (the production fetcher and the
printer) and of the test double of `github_activity/github_activity_test.go`, together with the
parts of the Go standard library they call: the `encoding/json` stream decoder applied to a
`[]GitHubEvent`, `time.Time.UnmarshalJSON`, and `time.Time.Format` with the layout
`2006-01-02 15:04:05`.

How the program is modelled:

* Text is a sequence of Unicode code points (`String`, `List Char`): the response body is taken
  to be valid UTF-8.
* A response body is the complete text its stream delivers; an error of the stream while it is
  read is not modelled.
* An `*http.Client` is the outcome of a `Get` for each URL, with the list of the requests
  issued through it.
* A Go function with results `([]GitHubEvent, error)` returns a pair of a list (a nil slice is
  the empty list) and an optional error.
* What the program takes from its environment is gathered in `Runtime`: the text of the
  messages of the library's errors, the lenient time parser behind the strict one, the header of
  the logger. Every theorem holds for every runtime.
* A process is what it has written to standard output and standard error, and its exit status
  once it has exited.
-/

namespace GithubActivity

/-! ## JSON values and the `encoding/json` scanner -/

/-- A JSON value as delimited by the scanner. Strings and numbers keep their raw source text
(for a string: the characters between the quotes, escapes not yet interpreted). -/
inductive Json where
  | null
  | bool (b : Bool)
  | num (raw : List Char)
  | str (raw : List Char)
  | arr (elems : List Json)
  | obj (members : List (List Char × Json))

/-- The ways in which `(*json.Decoder).Decode` into a `*[]GitHubEvent` can fail. -/
inductive DecodeFailure where
  /-- The error `io.EOF`: the body holds nothing but white space. -/
  | EOF
  /-- The error `io.ErrUnexpectedEOF`: the body ends inside the first value. -/
  | UnexpectedEOF
  /-- A `*json.SyntaxError` raised by the scanner. -/
  | SyntaxError
  /-- A `*json.UnmarshalTypeError`: a JSON value of the wrong kind for its Go target. -/
  | UnmarshalType
  /-- The error of `Time.UnmarshalJSON` for an input that is not a JSON string. -/
  | TimeNotString
  /-- A `*time.ParseError`. -/
  | TimeParse
  deriving DecidableEq, Repr

/-- The step functions of `scanner` (`scanner.go`): the state the scanner is in between two
bytes. The states `stateT`, `stateTr`, ... of the three literals are folded into `lit`, which
carries the characters still expected and the value the literal denotes; the four states of a
`\u` escape are folded into `inStringEscU`, which counts the hexadecimal digits still expected
(minus one). -/
inductive Step where
  | beginValueOrEmpty
  | beginValue
  | beginStringOrEmpty
  | beginString
  | endValue
  | inString
  | inStringEsc
  | inStringEscU (more : Nat)
  | neg
  | s1
  | s0
  | dot
  | dot0
  | e
  | eSign
  | e0
  | lit (expect : List Char) (v : Json)

/-- An entry of the scanner's `parseState` stack, carrying in addition the part of the composite
value read so far (most recent first). `objectKey` is `parseObjectKey` (before the colon; the
key is present once its string is complete), `objectValue` is `parseObjectValue` (after the
colon; the key is consumed once its value is complete), `array` is `parseArrayValue`. -/
inductive Frame where
  | objectKey (members : List (List Char × Json)) (key : Option (List Char))
  | objectValue (members : List (List Char × Json)) (key : Option (List Char))
  | array (elems : List Json)

/-- Scanner state: the step function, the `parseState` stack and the raw text of the scalar
being read (most recent character first). -/
structure Scanner where
  step : Step
  parseState : List Frame
  tok : List Char

/-- The constant `maxNestingDepth` of `scanner.go`. -/
def maxNestingDepth : Nat := 10000

/-- Outcome of feeding one character to the scanner. -/
inductive StepResult where
  /-- The character was consumed and the value is not complete. -/
  | next (s : Scanner)
  /-- The top-level value is complete and the character is its last one. -/
  | endAt (v : Json)
  /-- The top-level value was complete before the character (a number). -/
  | endBefore (v : Json)
  /-- The scanner returned `scanError`. -/
  | fail

/-- The function `isSpace` of `scanner.go`. -/
def isSpace (c : Char) : Bool :=
  c.toNat ≤ 32 && (c.toNat = 32 || c.toNat = 9 || c.toNat = 13 || c.toNat = 10)

/-- The byte is a decimal digit. -/
def isDigit (c : Char) : Bool := 48 ≤ c.toNat && c.toNat ≤ 57

/-- The byte is a hexadecimal digit, in either case. -/
def isHex (c : Char) : Bool :=
  isDigit c || (97 ≤ c.toNat && c.toNat ≤ 102) || (65 ≤ c.toNat && c.toNat ≤ 70)

/-- A value is complete: store it in the enclosing composite, or finish at top level. The
scanner continues in `stateEndValue`. -/
def completeValue (v : Json) : List Frame → StepResult
  | [] => .endAt v
  | .array es :: st => .next ⟨.endValue, .array (v :: es) :: st, []⟩
  | .objectKey ms none :: st =>
      match v with
      | .str raw => .next ⟨.endValue, .objectKey ms (some raw) :: st, []⟩
      | _ => .fail
  | .objectValue ms (some k) :: st => .next ⟨.endValue, .objectValue ((k, v) :: ms) none :: st, []⟩
  | _ => .fail

/-- The function `stateEndValue` for a non-empty `parseState`: after a value inside a composite. -/
def stateEndValue (st : List Frame) (c : Char) : StepResult :=
  if isSpace c then .next ⟨.endValue, st, []⟩
  else match st with
    | .objectKey ms (some k) :: rest =>
        if c = ':' then .next ⟨.beginValue, .objectValue ms (some k) :: rest, []⟩ else .fail
    | .objectValue ms none :: rest =>
        if c = ',' then .next ⟨.beginString, .objectKey ms none :: rest, []⟩
        else if c = '}' then completeValue (.obj ms.reverse) rest
        else .fail
    | .array es :: rest =>
        if c = ',' then .next ⟨.beginValue, st, []⟩
        else if c = ']' then completeValue (.arr es.reverse) rest
        else .fail
    | _ => .fail

/-- A number ends before the character `c`: at top level the value is complete, inside a
composite the character is handed to `stateEndValue`. -/
def endNumber (s : Scanner) (c : Char) : StepResult :=
  match completeValue (.num s.tok.reverse) s.parseState with
  | .endAt v => .endBefore v
  | .next s1 => stateEndValue s1.parseState c
  | r => r

/-- The function `stateBeginString`. -/
def stateBeginString (s : Scanner) (c : Char) : StepResult :=
  if isSpace c then .next s
  else if c = '"' then .next ⟨.inString, s.parseState, []⟩
  else .fail

/-- The function `stateBeginValue`, with `pushParseState` and its depth check. -/
def stateBeginValue (s : Scanner) (c : Char) : StepResult :=
  if isSpace c then .next s
  else if c = '{' then
    if s.parseState.length + 1 ≤ maxNestingDepth then
      .next ⟨.beginStringOrEmpty, .objectKey [] none :: s.parseState, []⟩
    else .fail
  else if c = '[' then
    if s.parseState.length + 1 ≤ maxNestingDepth then
      .next ⟨.beginValueOrEmpty, .array [] :: s.parseState, []⟩
    else .fail
  else if c = '"' then .next ⟨.inString, s.parseState, []⟩
  else if c = '-' then .next ⟨.neg, s.parseState, [c]⟩
  else if c = '0' then .next ⟨.s0, s.parseState, [c]⟩
  else if c = 't' then .next ⟨.lit ['r', 'u', 'e'] (.bool true), s.parseState, []⟩
  else if c = 'f' then .next ⟨.lit ['a', 'l', 's', 'e'] (.bool false), s.parseState, []⟩
  else if c = 'n' then .next ⟨.lit ['u', 'l', 'l'] .null, s.parseState, []⟩
  else if isDigit c then .next ⟨.s1, s.parseState, [c]⟩
  else .fail

/-- The function `state0`: after a leading `0`, or after the integer part. -/
def state0 (s : Scanner) (c : Char) : StepResult :=
  if c = '.' then .next ⟨.dot, s.parseState, c :: s.tok⟩
  else if c = 'e' ∨ c = 'E' then .next ⟨.e, s.parseState, c :: s.tok⟩
  else endNumber s c

/-- The function `stateESign`: after the sign of an exponent. -/
def stateESign (s : Scanner) (c : Char) : StepResult :=
  if isDigit c then .next ⟨.e0, s.parseState, c :: s.tok⟩ else .fail

/-- One call `s.step(s, c)` of the scanner. -/
def step (s : Scanner) (c : Char) : StepResult :=
  match s.step with
  | .beginValueOrEmpty =>
      if isSpace c then .next s
      else if c = ']' then stateEndValue s.parseState c
      else stateBeginValue s c
  | .beginValue => stateBeginValue s c
  | .beginStringOrEmpty =>
      if isSpace c then .next s
      else if c = '}' then
        match s.parseState with
        | .objectKey ms none :: rest => stateEndValue (.objectValue ms none :: rest) c
        | _ => .fail
      else stateBeginString s c
  | .beginString => stateBeginString s c
  | .endValue => stateEndValue s.parseState c
  | .inString =>
      if c = '"' then completeValue (.str s.tok.reverse) s.parseState
      else if c = '\\' then .next ⟨.inStringEsc, s.parseState, c :: s.tok⟩
      else if c.toNat < 32 then .fail
      else .next ⟨.inString, s.parseState, c :: s.tok⟩
  | .inStringEsc =>
      if c = 'b' ∨ c = 'f' ∨ c = 'n' ∨ c = 'r' ∨ c = 't' ∨ c = '\\' ∨ c = '/' ∨ c = '"' then
        .next ⟨.inString, s.parseState, c :: s.tok⟩
      else if c = 'u' then .next ⟨.inStringEscU 3, s.parseState, c :: s.tok⟩
      else .fail
  | .inStringEscU more =>
      if isHex c then
        match more with
        | 0 => .next ⟨.inString, s.parseState, c :: s.tok⟩
        | k + 1 => .next ⟨.inStringEscU k, s.parseState, c :: s.tok⟩
      else .fail
  | .neg =>
      if c = '0' then .next ⟨.s0, s.parseState, c :: s.tok⟩
      else if isDigit c then .next ⟨.s1, s.parseState, c :: s.tok⟩
      else .fail
  | .s1 =>
      if isDigit c then .next ⟨.s1, s.parseState, c :: s.tok⟩ else state0 s c
  | .s0 => state0 s c
  | .dot =>
      if isDigit c then .next ⟨.dot0, s.parseState, c :: s.tok⟩ else .fail
  | .dot0 =>
      if isDigit c then .next ⟨.dot0, s.parseState, c :: s.tok⟩
      else if c = 'e' ∨ c = 'E' then .next ⟨.e, s.parseState, c :: s.tok⟩
      else endNumber s c
  | .e =>
      if c = '+' ∨ c = '-' then .next ⟨.eSign, s.parseState, c :: s.tok⟩ else stateESign s c
  | .eSign => stateESign s c
  | .e0 =>
      if isDigit c then .next ⟨.e0, s.parseState, c :: s.tok⟩ else endNumber s c
  | .lit expect v =>
      match expect with
      | [] => .fail
      | x :: xs =>
          if c = x then
            match xs with
            | [] => completeValue v s.parseState
            | _ :: _ => .next ⟨.lit xs v, s.parseState, []⟩
          else .fail

/-- What `(*Decoder).readValue` does when the body ends: a top-level number is complete, a body
of white space only gives `io.EOF`, anything else `io.ErrUnexpectedEOF`. -/
def atEOF (s : Scanner) : Except DecodeFailure Json :=
  match s.parseState, s.step with
  | [], .s1 => .ok (.num s.tok.reverse)
  | [], .s0 => .ok (.num s.tok.reverse)
  | [], .dot0 => .ok (.num s.tok.reverse)
  | [], .e0 => .ok (.num s.tok.reverse)
  | [], .beginValue => .error .EOF
  | _, _ => .error .UnexpectedEOF

/-- The loop of `(*Decoder).readValue` over the bytes of the body. -/
def scanFrom (s : Scanner) : List Char → Except DecodeFailure Json
  | [] => atEOF s
  | c :: cs =>
      match step s c with
      | .next s1 => scanFrom s1 cs
      | .endAt v => .ok v
      | .endBefore v => .ok v
      | .fail => .error .SyntaxError

/-- The first JSON value of the body, as `(*Decoder).readValue` delimits it: the scanner starts
in `stateBeginValue` with an empty `parseState` (`scanner.reset`). -/
def readValue (body : List Char) : Except DecodeFailure Json :=
  scanFrom ⟨.beginValue, [], []⟩ body

/-! ## String unquoting and struct field lookup (`decode.go`) -/

/-- Value of a hexadecimal digit. -/
def hexVal (c : Char) : Nat :=
  if isDigit c then c.toNat - 48
  else if 97 ≤ c.toNat ∧ c.toNat ≤ 102 then c.toNat - 87
  else c.toNat - 55

/-- The character a single-letter escape of a JSON string stands for. -/
def escapeChar (c : Char) : Char :=
  if c = 'b' then Char.ofNat 8
  else if c = 'f' then Char.ofNat 12
  else if c = 'n' then Char.ofNat 10
  else if c = 'r' then Char.ofNat 13
  else if c = 't' then Char.ofNat 9
  else c

/-- An item of a JSON string: a character (literal, or given by a single-letter escape), or the
16-bit value of a `\u` escape. -/
inductive StrItem where
  | ch (c : Char)
  | u16 (n : Nat)

/-- Where the reading of a string's raw text stands: between items, after a reverse solidus, or
inside the hexadecimal digits of a `\u` escape (digits still expected minus one, value so far). -/
inductive UnquoteState where
  | plain
  | esc
  | hex (more : Nat) (acc : Nat)

/-- Split the raw text of a (scanner-validated) JSON string into its items. -/
def strItems : UnquoteState → List Char → List StrItem
  | _, [] => []
  | .plain, c :: cs => if c = '\\' then strItems .esc cs else .ch c :: strItems .plain cs
  | .esc, c :: cs =>
      if c = 'u' then strItems (.hex 3 0) cs else .ch (escapeChar c) :: strItems .plain cs
  | .hex more acc, c :: cs =>
      match more with
      | 0 => .u16 (acc * 16 + hexVal c) :: strItems .plain cs
      | k + 1 => strItems (.hex k (acc * 16 + hexVal c)) cs

/-- The rune `unicode.ReplacementChar`. -/
def replacementChar : Char := Char.ofNat 0xFFFD

/-- The function `utf16.IsSurrogate`. -/
def isSurrogate (n : Nat) : Bool := 0xD800 ≤ n && n < 0xE000

/-- Interpret the `\u` escapes as `unquoteBytes` does: a high surrogate directly followed by a
low surrogate is one code point, any other surrogate is replaced by U+FFFD. The flag tells that
the item at the head is the low half of a pair already emitted. -/
def decodeItems : Bool → List StrItem → List Char
  | _, [] => []
  | _, .ch c :: rest => c :: decodeItems false rest
  | true, .u16 _ :: rest => decodeItems false rest
  | false, .u16 n :: rest =>
      if isSurrogate n then
        match rest with
        | .u16 m :: _ =>
            if n < 0xDC00 ∧ 0xDC00 ≤ m ∧ m < 0xE000 then
              Char.ofNat ((n - 0xD800) * 1024 + (m - 0xDC00) + 0x10000) :: decodeItems true rest
            else replacementChar :: decodeItems false rest
        | _ => replacementChar :: decodeItems false rest
      else Char.ofNat n :: decodeItems false rest

/-- The function `unquote` of `decode.go`, on the raw text between the quotes. -/
def unquote (raw : List Char) : String := ⟨decodeItems false (strItems .plain raw)⟩

/-- The function `foldName` restricted to what matters for field names without `k` and `s`: ASCII
letters are upper-cased. (A non-ASCII rune folds to an ASCII letter only in the fold sets of `K`
and `S`, so for such field names a key with a non-ASCII rune never matches.) -/
def foldName (s : List Char) : List Char :=
  s.map fun c => if 97 ≤ c.toNat ∧ c.toNat ≤ 122 then Char.ofNat (c.toNat - 32) else c

/-- The field a key selects in `(*decodeState).object`: the field of exactly that name, else
the field whose folded name equals the folded key. -/
def lookupField {φ : Type} (name : φ → String) (fields : List φ) (key : String) : Option φ :=
  match fields.find? (fun f => name f = key) with
  | some f => some f
  | none => fields.find? (fun f => foldName (name f).data = foldName key.data)

/-! ## `time.Time` -/

/-- A `time.Time` as far as formatting can observe it: the instant, and the offset in effect at
that instant in the value's `Location`. -/
structure Time where
  /-- Seconds since January 1, 1970 00:00:00 UTC. -/
  sec : Int
  /-- Nanoseconds within the second. -/
  nsec : Nat
  /-- Seconds east of UTC. -/
  offset : Int
  deriving DecidableEq, Repr

/-- Seconds from January 1, 1 00:00:00 UTC to the Unix epoch. -/
def unixToInternal : Int := 62135596800

/-- The zero `time.Time`: January 1, year 1, 00:00:00 UTC. -/
def Time.zero : Time := ⟨-unixToInternal, 0, 0⟩

/-- The method `Time.UTC`: same instant, location UTC. -/
def Time.UTC (t : Time) : Time := { t with offset := 0 }

/-- The function `isLeap`. -/
def isLeap (year : Int) : Bool := year % 4 = 0 && (year % 100 ≠ 0 || year % 400 = 0)

/-- The table `daysBefore`: `daysBefore m` is the number of days in a non-leap year before
month `m + 1`. -/
def daysBefore : Nat → Nat
  | 0 => 0
  | 1 => 31
  | 2 => 59
  | 3 => 90
  | 4 => 120
  | 5 => 151
  | 6 => 181
  | 7 => 212
  | 8 => 243
  | 9 => 273
  | 10 => 304
  | 11 => 334
  | _ => 365

/-- The function `daysIn`. -/
def daysIn (month : Nat) (year : Int) : Nat :=
  if month = 2 ∧ isLeap year then 29 else daysBefore month - daysBefore (month - 1)

/-- Days from January 1 of year 1 to January 1 of `year` (proleptic Gregorian calendar). -/
def daysBeforeYear (year : Int) : Int :=
  365 * (year - 1) + (year - 1) / 4 - (year - 1) / 100 + (year - 1) / 400

/-- The function `time.Date` in location UTC, for a month in 1..12 (no normalisation needed). -/
def Date (year : Int) (month day hour min sec nsec : Nat) : Time :=
  let d : Int := daysBeforeYear year + daysBefore (month - 1)
    + (if isLeap year ∧ 3 ≤ month then 1 else 0) + (day - 1 : Nat)
  ⟨d * 86400 + (hour * 3600 + min * 60 + sec : Nat) - unixToInternal, nsec, 0⟩

/-- Month and day of the month from the day of the year (`absDate`, second half). -/
def monthDay (leap : Bool) (yday : Nat) : Nat × Nat :=
  if leap ∧ yday = 31 + 29 - 1 then (2, 29)
  else
    let day := if leap ∧ yday > 31 + 29 - 1 then yday - 1 else yday
    let month := day / 31
    let fin := daysBefore (month + 1)
    if day ≥ fin then (month + 2, day - fin + 1) else (month + 1, day - daysBefore month + 1)

/-- Year, month and day of the day numbered `days` from January 1 of year 1 (`absDate`). -/
def absDate (days : Int) : Int × Nat × Nat :=
  let n400 := days / 146097
  let d1 := days % 146097
  let n100 := d1 / 36524 - d1 / 36524 / 4
  let d2 := d1 - 36524 * n100
  let n4 := d2 / 1461
  let d3 := d2 - 1461 * n4
  let n1 := d3 / 365 - d3 / 365 / 4
  let yday := d3 - 365 * n1
  let year := 400 * n400 + 100 * n100 + 4 * n4 + n1 + 1
  (year, monthDay (isLeap year) yday.toNat)

/-- The decimal digit `n % 10` as a character. -/
def digitChar (n : Nat) : Char := Char.ofNat (48 + n % 10)

/-- The function `appendInt` of `time/format.go`: decimal form of `x`, zero-padded to `width`. -/
def appendInt (x : Int) (width : Nat) : List Char :=
  let u := x.natAbs
  (if x < 0 then ['-'] else []) ++
    (if width = 2 ∧ u < 100 then [digitChar (u / 10), digitChar u]
     else if width = 4 ∧ u < 10000 then
       [digitChar (u / 1000), digitChar (u / 100), digitChar (u / 10), digitChar u]
     else List.replicate (width - (Nat.toDigits 10 u).length) '0' ++ Nat.toDigits 10 u)

/-- The method `Time.Format` for the layout `"2006-01-02 15:04:05"`: the date and the clock in
the location of the value. -/
def Time.Format (t : Time) : String :=
  let abs := t.sec + t.offset + unixToInternal
  let date := absDate (abs / 86400)
  let s := (abs % 86400).toNat
  ⟨appendInt date.1 4 ++ ['-'] ++ appendInt date.2.1 2 ++ ['-'] ++ appendInt date.2.2 2 ++ [' ']
    ++ appendInt (s / 3600 : Nat) 2 ++ [':'] ++ appendInt (s % 3600 / 60 : Nat) 2 ++ [':']
    ++ appendInt (s % 60 : Nat) 2⟩

/-- The sub-slice `s[i:j]`. -/
def slice (s : List Char) (i j : Nat) : List Char := (s.drop i).take (j - i)

/-- The closure `parseUint` of `parseRFC3339`: an unsigned decimal integer within a range. -/
def parseUint (s : List Char) (lo hi : Nat) : Option Nat :=
  if s.all isDigit then
    let x := s.foldl (fun x c => x * 10 + (c.toNat - 48)) 0
    if lo ≤ x ∧ x ≤ hi then some x else none
  else none

/-- The function `parseNanoseconds` on a period followed by digits: the first nine digits,
scaled to nanoseconds. -/
def parseNanoseconds (digits : List Char) : Nat :=
  (digits.take 9).foldl (fun x c => x * 10 + (c.toNat - 48)) 0 * 10 ^ (9 - (digits.take 9).length)

/-- The zone designator of an RFC 3339 time: `Z`, or a sign with hours and minutes. The result
is the offset in seconds east of UTC. -/
def parseZone (s : List Char) : Option Int :=
  if s = ['Z'] then some 0
  else if s.length ≠ 6 then none
  else do
    let hr ← parseUint (slice s 1 3) 0 23
    let mm ← parseUint (slice s 4 6) 0 59
    if (s.head? = some '-' ∨ s.head? = some '+') ∧ s.get? 3 = some ':' then
      some (if s.head? = some '-' then -(((hr * 60 + mm) * 60 : Nat) : Int)
            else (((hr * 60 + mm) * 60 : Nat) : Int))
    else none

/-- The function `parseRFC3339` of `time/format_rfc3339.go`: the strict fast path. -/
def parseRFC3339 (s : List Char) : Option Time :=
  if s.length < 19 then none
  else do
    let year ← parseUint (slice s 0 4) 0 9999
    let month ← parseUint (slice s 5 7) 1 12
    let day ← parseUint (slice s 8 10) 1 (daysIn month year)
    let hour ← parseUint (slice s 11 13) 0 23
    let min ← parseUint (slice s 14 16) 0 59
    let sec ← parseUint (slice s 17 19) 0 59
    if s.get? 4 = some '-' ∧ s.get? 7 = some '-' ∧ s.get? 10 = some 'T'
        ∧ s.get? 13 = some ':' ∧ s.get? 16 = some ':' then
      let rest := s.drop 19
      let frac := if rest.head? = some '.' ∧ (rest.get? 1).any isDigit
        then (rest.drop 1).takeWhile isDigit else []
      let zone := if frac = [] then rest else rest.drop (1 + frac.length)
      let t := Date year month day hour min sec (parseNanoseconds frac)
      do
        let off ← parseZone zone
        some ⟨t.sec - off, t.nsec, off⟩
    else none

/-! ## The data model of `github_activity.go` -/

/-- The anonymous struct type of the field `Repo`. -/
structure Repo where
  Name : String
  deriving DecidableEq, Repr

/-- The struct `GitHubEvent`. The Go field `Type` is spelled `Type_`. -/
structure GitHubEvent where
  Type_ : String
  CreatedAt : Time
  Repo : Repo
  deriving DecidableEq, Repr

/-- The zero value of `GitHubEvent`. -/
def GitHubEvent.zero : GitHubEvent := ⟨"", Time.zero, ⟨""⟩⟩

/-- A Go `error` value: built by `errors.New` (or `fmt.Errorf` without `%w`), or by `fmt.Errorf`
with a format that ends in `%w`. -/
inductive GoError where
  | New (text : String)
  | Wrapped (pre : String) (cause : GoError)
  deriving DecidableEq, Repr

/-- The method `Error` of an error value. -/
def GoError.Error : GoError → String
  | .New text => text
  | .Wrapped pre cause => pre ++ cause.Error

/-- What the program takes from its environment and the model leaves open. -/
structure Runtime where
  /-- The message of the error value the decoder returns for each kind of failure. -/
  decodeErrorText : DecodeFailure → String
  /-- The general layout-driven parser `time.Parse(time.RFC3339, s)`, which
  `parseStrictRFC3339` falls back on when the fast path `parseRFC3339` rejects the input. -/
  timeParse : List Char → Option Time
  /-- The header (date and time of the call) the standard logger writes before a message. -/
  logHeader : String

/-! ## Unmarshalling into `[]GitHubEvent` (`decode.go`) -/

/-- The method `saveError`: only the first error is kept. -/
def saveError (saved : Option DecodeFailure) (e : DecodeFailure) : Option DecodeFailure :=
  match saved with
  | none => some e
  | some x => some x

/-- Decode a JSON value into a Go `string`: `null` leaves it unchanged, a string sets it, any
other value saves an `UnmarshalTypeError` and decoding goes on. -/
def storeString (v : Json) (cur : String) (saved : Option DecodeFailure) :
    String × Option DecodeFailure :=
  match v with
  | .null => (cur, saved)
  | .str raw => (unquote raw, saved)
  | _ => (cur, saveError saved .UnmarshalType)

/-- The method `(*Time).UnmarshalJSON`, which the decoder calls with the raw text of the value:
`null` is a no-op, a string is parsed by `parseStrictRFC3339` without interpreting JSON escapes,
anything else is an error. Its error ends the decoding. -/
def Time.UnmarshalJSON (rt : Runtime) (v : Json) (cur : Time) : Except DecodeFailure Time :=
  match v with
  | .null => .ok cur
  | .str raw =>
      match parseRFC3339 raw with
      | some t => .ok t
      | none =>
          match rt.timeParse raw with
          | some t => .ok t
          | none => .error .TimeParse
  | _ => .error .TimeNotString

/-- The JSON-visible fields of the struct of `Repo`. -/
inductive RepoField where
  | Name
  deriving DecidableEq

/-- The name given by the struct tag. -/
def RepoField.tag : RepoField → String
  | .Name => "name"

/-- The JSON-visible fields of `GitHubEvent`. -/
inductive EventField where
  | Type_
  | CreatedAt
  | Repo
  deriving DecidableEq

/-- The name given by the struct tag. -/
def EventField.tag : EventField → String
  | .Type_ => "type"
  | .CreatedAt => "created_at"
  | .Repo => "repo"

/-- The method `(*decodeState).object` on the struct of `Repo`: the members in source order. -/
def objectRepo : List (List Char × Json) → Repo → Option DecodeFailure → Repo × Option DecodeFailure
  | [], r, saved => (r, saved)
  | (k, v) :: ms, r, saved =>
      match lookupField RepoField.tag [.Name] (unquote k) with
      | some .Name => objectRepo ms ⟨(storeString v r.Name saved).1⟩ (storeString v r.Name saved).2
      | none => objectRepo ms r saved

/-- Decode a JSON value into the struct of `Repo`. -/
def valueRepo (v : Json) (cur : Repo) (saved : Option DecodeFailure) : Repo × Option DecodeFailure :=
  match v with
  | .null => (cur, saved)
  | .obj ms => objectRepo ms cur saved
  | _ => (cur, saveError saved .UnmarshalType)

/-- The method `(*decodeState).object` on a `GitHubEvent`: the members in source order; a member
whose key selects no field is skipped. -/
def objectEvent (rt : Runtime) : List (List Char × Json) → GitHubEvent → Option DecodeFailure →
    Except DecodeFailure (GitHubEvent × Option DecodeFailure)
  | [], e, saved => .ok (e, saved)
  | (k, v) :: ms, e, saved =>
      match lookupField EventField.tag [.Type_, .CreatedAt, .Repo] (unquote k) with
      | some .Type_ =>
          objectEvent rt ms { e with Type_ := (storeString v e.Type_ saved).1 }
            (storeString v e.Type_ saved).2
      | some .CreatedAt =>
          match Time.UnmarshalJSON rt v e.CreatedAt with
          | .error f => .error f
          | .ok t => objectEvent rt ms { e with CreatedAt := t } saved
      | some .Repo =>
          objectEvent rt ms { e with Repo := (valueRepo v e.Repo saved).1 } (valueRepo v e.Repo saved).2
      | none => objectEvent rt ms e saved

/-- Decode a JSON value into a `GitHubEvent`. -/
def valueEvent (rt : Runtime) (v : Json) (cur : GitHubEvent) (saved : Option DecodeFailure) :
    Except DecodeFailure (GitHubEvent × Option DecodeFailure) :=
  match v with
  | .null => .ok (cur, saved)
  | .obj ms => objectEvent rt ms cur saved
  | _ => .ok (cur, saveError saved .UnmarshalType)

/-- The method `(*decodeState).array` on the slice: each element of the JSON array is decoded
into a fresh (zero) element appended to the slice. -/
def arrayEvents (rt : Runtime) : List Json → Option DecodeFailure →
    Except DecodeFailure (List GitHubEvent × Option DecodeFailure)
  | [], saved => .ok ([], saved)
  | v :: vs, saved =>
      match valueEvent rt v GitHubEvent.zero saved with
      | .error f => .error f
      | .ok (e, saved1) =>
          match arrayEvents rt vs saved1 with
          | .error f => .error f
          | .ok (es, saved2) => .ok (e :: es, saved2)

/-- The method `(*decodeState).unmarshal` with a `*[]GitHubEvent` whose slice is nil: `null`
leaves the slice nil, an array fills it, any other value is an `UnmarshalTypeError`. An error
that ended the decoding is returned, else the first saved error. -/
def unmarshal (rt : Runtime) (v : Json) : Except DecodeFailure (List GitHubEvent) :=
  match v with
  | .null => .ok []
  | .arr vs =>
      match arrayEvents rt vs none with
      | .error f => .error f
      | .ok (_, some f) => .error f
      | .ok (es, none) => .ok es
  | _ => .error .UnmarshalType

/-- The call `json.NewDecoder(body).Decode(&events)` with `events` nil: read the first value of
the stream, then unmarshal it. What follows the first value is not examined. -/
def Decode (rt : Runtime) (body : String) : Except DecodeFailure (List GitHubEvent) :=
  match readValue body.data with
  | .error f => .error f
  | .ok v => unmarshal rt v

/-! ## The HTTP client -/

/-- The fields of `http.Response` the program reads. -/
structure Response where
  StatusCode : Int
  Body : String

/-- An `*http.Client` as the program sees it: what a `Get` of each URL results in, and the
requests issued through it so far (oldest first). -/
structure Client where
  roundTrip : String → Except GoError Response
  requests : List String

/-- The method `(*http.Client).Get`. -/
def Client.Get (c : Client) (url : String) : Except GoError Response × Client :=
  (c.roundTrip url, { c with requests := c.requests ++ [url] })

/-- The verb `%d` of `fmt` applied to an `int`. -/
def formatInt (x : Int) : String :=
  ⟨(if x < 0 then ['-'] else []) ++ Nat.toDigits 10 x.natAbs⟩

/-- The constant `http.StatusOK`. -/
def StatusOK : Int := 200

/-! ## The fetchers and the printer -/

/-- The struct `DefaultGitHubService`. -/
structure DefaultGitHubService where
  client : Client

/-- The function `NewGitHubService`. -/
def NewGitHubService (client : Client) : DefaultGitHubService := ⟨client⟩

/-- The method `(*DefaultGitHubService).GetRecentActivity`: the two results of the Go function
(a nil slice is the empty list, a nil error is `none`) and the service after the call. The
deferred `resp.Body.Close()` has no part in the results and is left out. -/
def DefaultGitHubService.GetRecentActivity (rt : Runtime) (s : DefaultGitHubService)
    (username : String) : (List GitHubEvent × Option GoError) × DefaultGitHubService :=
  if username = "" then
    (([], some (.New "username cannot be empty")), s)
  else
    let url := "https://api.github.com/users/" ++ username ++ "/events"
    match s.client.Get url with
    | (.error err, c) => (([], some (.Wrapped "failed to fetch data from GitHub: " err)), ⟨c⟩)
    | (.ok resp, c) =>
        if resp.StatusCode ≠ StatusOK then
          (([], some (.New ("GitHub API returned status: " ++ formatInt resp.StatusCode))), ⟨c⟩)
        else
          match Decode rt resp.Body with
          | .error f =>
              (([], some (.Wrapped "failed to decode response: " (.New (rt.decodeErrorText f)))), ⟨c⟩)
          | .ok events => ((events, none), ⟨c⟩)

/-- The struct `MockGitHubService` of the test file. -/
structure MockGitHubService where
  baseURL : String
  client : Client

/-- The method `(*MockGitHubService).GetRecentActivity` of the test file. -/
def MockGitHubService.GetRecentActivity (rt : Runtime) (s : MockGitHubService)
    (username : String) : (List GitHubEvent × Option GoError) × MockGitHubService :=
  if username = "" then
    (([], some (.New "username cannot be empty")), s)
  else
    let url := s.baseURL ++ "/users/" ++ username ++ "/events"
    match s.client.Get url with
    | (.error err, c) =>
        (([], some (.Wrapped "failed to fetch data from GitHub: " err)), ⟨s.baseURL, c⟩)
    | (.ok resp, c) =>
        if resp.StatusCode ≠ StatusOK then
          (([], some (.New ("GitHub API returned status: " ++ formatInt resp.StatusCode))),
            ⟨s.baseURL, c⟩)
        else
          match Decode rt resp.Body with
          | .error f =>
              (([], some (.Wrapped "failed to decode response: " (.New (rt.decodeErrorText f)))),
                ⟨s.baseURL, c⟩)
          | .ok events => ((events, none), ⟨s.baseURL, c⟩)

/-- The interface `GitHubService` as `PrintRecentActivity` uses it: the two results of a call of
`GetRecentActivity`. -/
abbrev GitHubService := String → List GitHubEvent × Option GoError

/-- The production service as a `GitHubService`. -/
def DefaultGitHubService.service (rt : Runtime) (s : DefaultGitHubService) : GitHubService :=
  fun username => (s.GetRecentActivity rt username).1

/-- What a run of the process leaves behind: the text written to standard output and to standard
error, and the exit status once `os.Exit` was called. -/
structure Process where
  stdout : String
  stderr : String
  exited : Option Nat
  deriving DecidableEq, Repr

/-- A process that has written nothing. -/
def Process.start : Process := ⟨"", "", none⟩

/-- The call `fmt.Printf` with an already formatted text. -/
def Process.Printf (p : Process) (text : String) : Process :=
  { p with stdout := p.stdout ++ text }

/-- The call `log.Fatalf` with an already formatted message: the standard logger writes its
header and the message to standard error, ends the line if the message does not, and calls
`os.Exit(1)`. -/
def Process.Fatalf (rt : Runtime) (p : Process) (msg : String) : Process :=
  { p with
    stderr := p.stderr ++ rt.logHeader ++ msg ++ (if msg.data.getLast? = some '\n' then "" else "\n")
    exited := some 1 }

/-- The line `PrintRecentActivity` prints for one event. -/
def eventLine (event : GitHubEvent) : String :=
  "- " ++ event.Type_ ++ " on " ++ event.Repo.Name ++ " at " ++ event.CreatedAt.Format ++ "\n"

/-- The function `PrintRecentActivity`. -/
def PrintRecentActivity (rt : Runtime) (username : String) (service : GitHubService)
    (p : Process) : Process :=
  match service username with
  | (_, some err) => p.Fatalf rt ("Error fetching activity: " ++ err.Error)
  | (events, none) =>
      events.foldl (fun q event => q.Printf (eventLine event))
        (p.Printf ("Recent activity for user " ++ username ++ ":\n"))

/-! ## Vocabulary of the statements -/

/-- The URL the production fetcher requests for a user. -/
def eventsURL (username : String) : String :=
  "https://api.github.com/users/" ++ username ++ "/events"

/-- The values of the members of an object whose key selects the field `f`, in source order. -/
def membersOf {φ : Type} [DecidableEq φ] (tag : φ → String) (fields : List φ) (f : φ)
    (ms : List (List Char × Json)) : List Json :=
  (ms.filter fun m => lookupField tag fields (unquote m.1) = some f).map Prod.snd

/-- The JSON value `j` is an event object that denotes the event `e`: an object with exactly one
member for each of `type`, `created_at` and `repo` (other members are free); `type` is a string
that reads `e.Type_`, `created_at` is a string holding an RFC 3339 time of instant and offset
`e.CreatedAt`, and `repo` is an object with exactly one member `name`, a string that reads
`e.Repo.Name`. -/
def IsEventObject (j : Json) (e : GitHubEvent) : Prop :=
  ∃ ms rawType rawCreated repoMs rawName,
    j = .obj ms
    ∧ membersOf EventField.tag [.Type_, .CreatedAt, .Repo] .Type_ ms = [.str rawType]
    ∧ unquote rawType = e.Type_
    ∧ membersOf EventField.tag [.Type_, .CreatedAt, .Repo] .CreatedAt ms = [.str rawCreated]
    ∧ parseRFC3339 rawCreated = some e.CreatedAt
    ∧ membersOf EventField.tag [.Type_, .CreatedAt, .Repo] .Repo ms = [.obj repoMs]
    ∧ membersOf RepoField.tag [.Name] .Name repoMs = [.str rawName]
    ∧ unquote rawName = e.Repo.Name

/-- The method `Time.Year`: the year in the location of the value. -/
def Time.Year (t : Time) : Int := (absDate ((t.sec + t.offset + unixToInternal) / 86400)).1

/-- The text has the form `dddd-dd-dd dd:dd:dd`, each `d` a decimal digit. -/
def IsTimestampText (text : List Char) : Prop :=
  ∃ y1 y2 y3 y4 m1 m2 d1 d2 h1 h2 i1 i2 s1 s2 : Char,
    (∀ c ∈ [y1, y2, y3, y4, m1, m2, d1, d2, h1, h2, i1, i2, s1, s2], isDigit c = true)
    ∧ text = [y1, y2, y3, y4, '-', m1, m2, '-', d1, d2, ' ', h1, h2, ':', i1, i2, ':', s1, s2]

/-- The first character of the text that is not white space. -/
def firstNonSpace (text : List Char) : Option Char := (text.dropWhile isSpace).head?

/-! ### The JSON text of an array of events

The text of a response body, described without reference to the decoder: the tokens of a JSON
array of event objects, with optional white space in front of each token. -/

/-- The text consists of JSON white space: blanks, tabs, line feeds and carriage returns. -/
def IsBlank (w : List Char) : Prop := ∀ c ∈ w, c = ' ' ∨ c = '\t' ∨ c = '\n' ∨ c = '\r'

instance (w : List Char) : Decidable (IsBlank w) := by
  unfold IsBlank
  infer_instance

/-- The hexadecimal digit of a number below 16. -/
def hexDigit (n : Nat) : Char := if n < 10 then Char.ofNat (48 + n) else Char.ofNat (87 + n)

/-- The JSON text of one character of a string: quotation mark, reverse solidus and the control
characters are escaped, any other character stands for itself. -/
def escapeJSON (c : Char) : List Char :=
  if c = '"' then ['\\', '"']
  else if c = '\\' then ['\\', '\\']
  else if c = '\n' then ['\\', 'n']
  else if c = '\r' then ['\\', 'r']
  else if c = '\t' then ['\\', 't']
  else if c.toNat < 32 then ['\\', 'u', '0', '0', hexDigit (c.toNat / 16), hexDigit (c.toNat % 16)]
  else [c]

/-- The JSON text of the content of a string, without the quotation marks. -/
def escapeAll (s : List Char) : List Char := s.flatMap escapeJSON

/-- The JSON text of a string. -/
def quoteJSON (s : String) : List Char := '"' :: escapeAll s.data ++ ['"']

/-- Two decimal digits. -/
def two (n : Nat) : List Char := [digitChar (n / 10), digitChar n]

/-- Four decimal digits. -/
def four (n : Nat) : List Char :=
  [digitChar (n / 1000), digitChar (n / 100), digitChar (n / 10), digitChar n]

/-- The zone designator of an RFC 3339 time: `Z`, or an offset east or west of UTC. -/
inductive Zone where
  | Z
  | east (hours minutes : Nat)
  | west (hours minutes : Nat)

/-- The text of a zone designator. -/
def Zone.text : Zone → List Char
  | .Z => ['Z']
  | .east h m => '+' :: two h ++ ':' :: two m
  | .west h m => '-' :: two h ++ ':' :: two m

/-- The offset of a zone, in seconds east of UTC. -/
def Zone.offset : Zone → Int
  | .Z => 0
  | .east h m => (((h * 60 + m) * 60 : Nat) : Int)
  | .west h m => -(((h * 60 + m) * 60 : Nat) : Int)

/-- The hours and minutes of the offset are in range. -/
def Zone.Valid : Zone → Prop
  | .Z => True
  | .east h m => h ≤ 23 ∧ m ≤ 59
  | .west h m => h ≤ 23 ∧ m ≤ 59

instance (z : Zone) : Decidable z.Valid := by
  cases z <;> unfold Zone.Valid <;> infer_instance

/-- An RFC 3339 time without fraction of a second, by its fields. -/
structure Stamp where
  year : Nat
  month : Nat
  day : Nat
  hour : Nat
  minute : Nat
  second : Nat
  zone : Zone

/-- The fields are those of a date of the calendar and of a time of the day. -/
def Stamp.Valid (t : Stamp) : Prop :=
  t.year ≤ 9999 ∧ 1 ≤ t.month ∧ t.month ≤ 12 ∧ 1 ≤ t.day ∧ t.day ≤ daysIn t.month t.year
    ∧ t.hour ≤ 23 ∧ t.minute ≤ 59 ∧ t.second ≤ 59 ∧ t.zone.Valid

instance (t : Stamp) : Decidable t.Valid := by
  unfold Stamp.Valid
  infer_instance

/-- The text of the time: `YYYY-MM-DDTHH:MM:SS` and the zone designator. -/
def Stamp.text (t : Stamp) : List Char :=
  four t.year ++ '-' :: two t.month ++ '-' :: two t.day ++ 'T' :: two t.hour ++ ':' :: two t.minute
    ++ ':' :: two t.second ++ t.zone.text

/-- The instant the time denotes, with the offset it is written in. -/
def Stamp.time (t : Stamp) : Time :=
  ⟨(Date t.year t.month t.day t.hour t.minute t.second 0).sec - t.zone.offset, 0, t.zone.offset⟩

/-- An event as the specification describes it: type, creation time, repository name. -/
structure EventSpec where
  type_ : String
  created : Stamp
  repoName : String

/-- The `GitHubEvent` value of an event. -/
def EventSpec.event (e : EventSpec) : GitHubEvent := ⟨e.type_, e.created.time, ⟨e.repoName⟩⟩

/-- The tokens of the JSON object of an event. -/
def eventTokens (e : EventSpec) : List (List Char) :=
  [['{'], quoteJSON "type", [':'], quoteJSON e.type_, [','],
   quoteJSON "created_at", [':'], quoteJSON ⟨e.created.text⟩, [','],
   quoteJSON "repo", [':'], ['{'], quoteJSON "name", [':'], quoteJSON e.repoName, ['}'], ['}']]

/-- The tokens of a JSON array after an element: the further elements, each after a comma, and
the closing bracket. -/
def moreTokens : List EventSpec → List (List Char)
  | [] => [[']']]
  | e :: es => [','] :: eventTokens e ++ moreTokens es

/-- The tokens of the JSON array of the events. -/
def arrayTokens : List EventSpec → List (List Char)
  | [] => [['['], [']']]
  | e :: es => ['['] :: eventTokens e ++ moreTokens es

/-- The text consists of the tokens in order, each after optional white space, and then of
`rest`. -/
inductive Spaced : List (List Char) → List Char → List Char → Prop where
  | nil (rest : List Char) : Spaced [] rest rest
  | cons (w tok : List Char) (toks : List (List Char)) (text rest : List Char) :
      IsBlank w → Spaced toks text rest → Spaced (tok :: toks) (w ++ tok ++ text) rest

/-- The text is a JSON array of the objects of the events, with optional white space around
the tokens. -/
def IsEventArrayText (es : List EventSpec) (text : List Char) : Prop :=
  ∃ w, IsBlank w ∧ Spaced (arrayTokens es) text w

/-! ## Devices of the proofs -/

/-- What a field holds after an object was decoded in which at most one member selects it. -/
def fieldAfter {α : Type} (val : Json → Option α) (cur : α) : List Json → Option α
  | [] => some cur
  | [v] => val v
  | _ => none

/-- The Go string a JSON string value reads as. -/
def typeOf? : Json → Option String
  | .str raw => some (unquote raw)
  | _ => none

/-- The time a JSON string value holds, when it is an RFC 3339 time. -/
def createdOf? : Json → Option Time
  | .str raw => parseRFC3339 raw
  | _ => none

/-- The repository a JSON object with exactly one string member `name` reads as. -/
def repoOf? : Json → Option Repo
  | .obj ms =>
      match membersOf RepoField.tag [.Name] .Name ms with
      | [.str raw] => some ⟨unquote raw⟩
      | _ => none
  | _ => none

/-- The character is JSON white space. -/
def isBlankChar (c : Char) : Bool := c = ' ' || c = '\t' || c = '\n' || c = '\r'

/-- The text after the token, when the text starts with the token. -/
def stripToken : List Char → List Char → Option (List Char)
  | [], text => some text
  | _ :: _, [] => none
  | c :: tok, d :: text => if c = d then stripToken tok text else none

/-- The text after the tokens, each taken after the white space in front of it, when the text
starts with them. -/
def matchSpaced : List (List Char) → List Char → Option (List Char)
  | [], text => some text
  | tok :: toks, text =>
      match stripToken tok (text.dropWhile isBlankChar) with
      | some t => matchSpaced toks t
      | none => none

/-- The JSON value the scanner delivers for the object of an event. -/
def eventJson (e : EventSpec) : Json :=
  .obj [("type".data, .str (escapeAll e.type_.data)),
        ("created_at".data, .str (escapeAll e.created.text)),
        ("repo".data, .obj [("name".data, .str (escapeAll e.repoName.data))])]

/-- The scanner skips white space in this state. -/
def Step.skipsSpace : Step → Bool
  | .beginValueOrEmpty => true
  | .beginValue => true
  | .beginStringOrEmpty => true
  | .beginString => true
  | .endValue => true
  | _ => false

/-- The scanner may start a string in this state. -/
def Step.startsString : Step → Bool
  | .beginValueOrEmpty => true
  | .beginValue => true
  | .beginStringOrEmpty => true
  | .beginString => true
  | _ => false

/-- How the loop of `readValue` goes on after a step. -/
def continueWith (r : StepResult) (rest : List Char) : Except DecodeFailure Json :=
  match r with
  | .next s => scanFrom s rest
  | .endAt v => .ok v
  | .endBefore v => .ok v
  | .fail => .error .SyntaxError

/-- The value is neither an array nor `null`. -/
def Json.otherShape : Json → Bool
  | .arr _ => false
  | .null => false
  | _ => true

/-- The frame belongs to an object. -/
def Frame.isObject : Frame → Bool
  | .array _ => false
  | _ => true

/-- The outermost composite being read is an object. -/
def bottomIsObject : List Frame → Bool
  | [] => false
  | [f] => f.isObject
  | _ :: rest => bottomIsObject rest

/-- The scanner is inside a top-level value that is neither an array nor `null`. -/
def Scanner.inOtherShape (s : Scanner) : Bool :=
  match s.parseState with
  | [] =>
      match s.step with
      | .inString => true
      | .inStringEsc => true
      | .inStringEscU _ => true
      | .neg => true
      | .s1 => true
      | .s0 => true
      | .dot => true
      | .dot0 => true
      | .e => true
      | .eSign => true
      | .e0 => true
      | .lit _ v => v.otherShape
      | _ => false
  | st => bottomIsObject st

/-- The outcome of a step keeps the scanner inside a value that is neither an array nor
`null`, or ends such a value. -/
def StepResult.inOtherShape : StepResult → Bool
  | .next s => s.inOtherShape
  | .endAt v => v.otherShape
  | .endBefore v => v.otherShape
  | .fail => true

/-! ## Sample inputs -/

/-- A runtime for the examples: the decoder's messages, no lenient time parser, a log header. -/
def sampleRuntime : Runtime where
  decodeErrorText
    | .EOF => "EOF"
    | .UnexpectedEOF => "unexpected EOF"
    | .SyntaxError => "invalid character"
    | .UnmarshalType => "json: cannot unmarshal"
    | .TimeNotString => "Time.UnmarshalJSON: input is not a JSON string"
    | .TimeParse => "parsing time"
  timeParse := fun _ => none
  logHeader := "2024/01/01 00:00:00 "

/-- A client whose every request is answered with the given status code and body, as by the
server of `createMockServer`; no request issued yet. -/
def mockServerClient (response : String) (statusCode : Int) : Client :=
  ⟨fun _ => .ok ⟨statusCode, response⟩, []⟩

/-- The response body of `TestGitHubService_GetRecentActivity_Success`. -/
def successBody : String :=
  "[\n\t\t\x7b\n\t\t\t\"type\": \"PushEvent\",\n\t\t\t\"created_at\": \"2023-10-10T14:12:15Z\",\n\t\t\t\"repo\": \x7b \"name\": \"example/repo1\" \x7d\n\t\t\x7d,\n\t\t\x7b\n\t\t\t\"type\": \"IssueCommentEvent\",\n\t\t\t\"created_at\": \"2023-10-11T15:13:16Z\",\n\t\t\t\"repo\": \x7b \"name\": \"example/repo2\" \x7d\n\t\t\x7d\n\t]"

/-- The events of `successBody`, as the specification describes them. -/
def successSpecs : List EventSpec :=
  [⟨"PushEvent", ⟨2023, 10, 10, 14, 12, 15, .Z⟩, "example/repo1"⟩,
   ⟨"IssueCommentEvent", ⟨2023, 10, 11, 15, 13, 16, .Z⟩, "example/repo2"⟩]

/-- The events `successBody` denotes. -/
def successEvents : List GitHubEvent :=
  [⟨"PushEvent", ⟨1696947135, 0, 0⟩, ⟨"example/repo1"⟩⟩,
   ⟨"IssueCommentEvent", ⟨1697037196, 0, 0⟩, ⟨"example/repo2"⟩⟩]

/-- The response body of the end-to-end example of the specification. -/
def octocatBody : String :=
  "[\x7b\"type\":\"PushEvent\",\"created_at\":\"2023-10-10T14:12:15Z\",\"repo\":\x7b\"name\":\"example/repo1\"\x7d\x7d]"

/-- The same event with a time written in the offset `+02:00`. -/
def offsetBody : String :=
  "[\x7b\"type\":\"PushEvent\",\"created_at\":\"2023-10-10T14:12:15+02:00\",\"repo\":\x7b\"name\":\"example/repo1\"\x7d\x7d]"

/-- The response body of `TestGitHubService_GetRecentActivity_InvalidJSON`. -/
def invalidBody : String := "\x7b\"invalid_json\"\x7d"

/-- A response body with one event object as the GitHub API writes them: further members, the
members in another order. -/
def githubBody : String :=
  "[\x7b\"id\":\"1\",\"type\":\"WatchEvent\",\"actor\":\x7b\"login\":\"octocat\"\x7d,\"repo\":\x7b\"id\":1,\"name\":\"octocat/Hello-World\"\x7d,\"payload\":\x7b\"action\":\"started\"\x7d,\"public\":true,\"created_at\":\"2023-10-10T14:12:15Z\"\x7d]"

/-- The JSON array `githubBody` holds. -/
def githubElems : List Json :=
  [.obj [("id".data, .str "1".data),
         ("type".data, .str "WatchEvent".data),
         ("actor".data, .obj [("login".data, .str "octocat".data)]),
         ("repo".data, .obj [("id".data, .num "1".data),
                             ("name".data, .str "octocat/Hello-World".data)]),
         ("payload".data, .obj [("action".data, .str "started".data)]),
         ("public".data, .bool true),
         ("created_at".data, .str "2023-10-10T14:12:15Z".data)]]

/-- The event of the end-to-end example, as the specification describes it. -/
def octocatSpec : EventSpec := ⟨"PushEvent", ⟨2023, 10, 10, 14, 12, 15, .Z⟩, "example/repo1"⟩

/-! ## The calendar: a date and a clock survive `Date` followed by `Format` -/

/-- The month and the day are recovered from the day of the year, for every date of the calendar;
the day of the year is below the length of the year. -/
theorem monthDay_table (leap : Bool) (m d : Nat) (hm : m < 13) (hd : d < 32) (hm1 : 1 ≤ m)
    (hd1 : 1 ≤ d)
    (hd2 : d ≤ (if m = 2 ∧ leap = true then 29 else daysBefore m - daysBefore (m - 1))) :
    (monthDay leap (daysBefore (m - 1) + (if leap = true ∧ 3 ≤ m then 1 else 0) + (d - 1)) = (m, d)
      ∧ daysBefore (m - 1) + (if leap = true ∧ 3 ≤ m then 1 else 0) + (d - 1)
          < 365 + (if leap = true then 1 else 0)) := by
  cases leap <;> interval_cases m <;> interval_cases d <;> first | (exact absurd hd2 (by decide)) | decide

/-- The leap years of the Gregorian calendar. -/
theorem isLeap_iff (Y : Int) :
    isLeap Y = true ↔ Y % 4 = 0 ∧ (Y % 100 ≠ 0 ∨ Y % 400 = 0) := by
  simp [isLeap]

/-- The year and the day of the year are recovered from the day number. -/
theorem year_yday (Y yd : Int) (h0 : 0 ≤ yd)
    (h1 : yd < 365 ∨ (yd = 365 ∧ Y % 4 = 0 ∧ (Y % 100 ≠ 0 ∨ Y % 400 = 0))) :
    let days := 365 * (Y - 1) + (Y - 1) / 4 - (Y - 1) / 100 + (Y - 1) / 400 + yd
    let n400 := days / 146097
    let d1 := days % 146097
    let n100 := d1 / 36524 - d1 / 36524 / 4
    let d2 := d1 - 36524 * n100
    let n4 := d2 / 1461
    let d3 := d2 - 1461 * n4
    let n1 := d3 / 365 - d3 / 365 / 4
    400 * n400 + 100 * n100 + 4 * n4 + n1 + 1 = Y ∧ d3 - 365 * n1 = yd := by
  intro days n400 d1 n100 d2 n4 d3 n1
  obtain ⟨a, b, c, e, hY, hb0, hb, hc0, hc, he0, he⟩ : ∃ a b c e : Int,
      Y - 1 = 400 * a + 100 * b + 4 * c + e ∧ 0 ≤ b ∧ b ≤ 3 ∧ 0 ≤ c ∧ c ≤ 24 ∧ 0 ≤ e ∧ e ≤ 3 :=
    ⟨(Y - 1) / 400, (Y - 1) % 400 / 100, (Y - 1) % 100 / 4, (Y - 1) % 4,
      by omega, by omega, by omega, by omega, by omega, by omega, by omega⟩
  have q4 : (Y - 1) / 4 = 100 * a + 25 * b + c := by omega
  have q100 : (Y - 1) / 100 = 4 * a + b := by omega
  have q400 : (Y - 1) / 400 = a := by omega
  have hleap : yd ≤ 364 ∨ (yd = 365 ∧ e = 3 ∧ (c ≠ 24 ∨ b = 3)) := by omega
  have hdays : days = 146097 * a + 36524 * b + 1461 * c + 365 * e + yd := by
    show 365 * (Y - 1) + (Y - 1) / 4 - (Y - 1) / 100 + (Y - 1) / 400 + yd = _
    rw [q4, q100, q400]; omega
  clear_value days
  clear q4 q100 q400 h1
  have hn400 : n400 = a := by show days / 146097 = a; omega
  have hd1 : d1 = 36524 * b + 1461 * c + 365 * e + yd := by show days % 146097 = _; omega
  clear_value n400 d1
  clear hdays
  have hq : d1 / 36524 = b ∨ (d1 / 36524 = 4 ∧ b = 3) := by omega
  have hn100 : n100 = b := by show d1 / 36524 - d1 / 36524 / 4 = b; omega
  clear_value n100
  have hd2 : d2 = 1461 * c + 365 * e + yd := by show d1 - 36524 * n100 = _; omega
  clear_value d2
  clear hq hd1
  have hn4 : n4 = c := by show d2 / 1461 = c; omega
  clear_value n4
  have hd3 : d3 = 365 * e + yd := by show d2 - 1461 * n4 = _; omega
  clear_value d3
  have hq1 : d3 / 365 = e ∨ (d3 / 365 = 4 ∧ e = 3) := by omega
  have hn1 : n1 = e := by show d3 / 365 - d3 / 365 / 4 = e; omega
  clear_value n1
  omega

/-- The date is recovered from its day number. -/
theorem absDate_Date (Y : Int) (M D : Nat) (hM1 : 1 ≤ M) (hM2 : M ≤ 12) (hD1 : 1 ≤ D)
    (hD2 : D ≤ daysIn M Y) :
    absDate (daysBeforeYear Y
      + ((daysBefore (M - 1) + (if isLeap Y = true ∧ 3 ≤ M then 1 else 0) + (D - 1) : Nat) : Int))
      = (Y, M, D) := by
  have hD31 : D < 32 := by
    have : daysIn M Y ≤ 31 := by
      unfold daysIn
      split
      · omega
      · interval_cases M <;> simp [daysBefore]
    omega
  obtain ⟨hmd, hlt⟩ := monthDay_table (isLeap Y) M D (by omega) hD31 hM1 hD1 (by
    simpa [daysIn] using hD2)
  generalize hyd : (daysBefore (M - 1) + (if isLeap Y = true ∧ 3 ≤ M then 1 else 0) + (D - 1)) = yd
    at hmd hlt
  have hleap := isLeap_iff Y
  have hy := year_yday Y (yd : Int) (by omega) (by
    cases hl : isLeap Y with
    | false => left; simp [hl] at hlt; omega
    | true =>
      simp [hl] at hlt
      rcases Nat.lt_or_ge yd 365 with h | h
      · left; omega
      · right
        have := hleap.mp hl
        refine ⟨by omega, this.1, this.2⟩)
  simp only at hy
  simp only [absDate, daysBeforeYear]
  rw [hy.1, hy.2, Int.toNat_ofNat, hmd]



/-- The decimal digits are the characters 48 to 57. -/
theorem isDigit_iff (c : Char) : isDigit c = true ↔ 48 ≤ c.toNat ∧ c.toNat ≤ 57 := by
  simp [isDigit]

/-- A digit is the digit character of its value. -/
theorem digitChar_eq (c : Char) (n : Nat) (h : isDigit c = true) (hn : n % 10 = c.toNat - 48) :
    digitChar n = c := by
  have hc := (isDigit_iff c).mp h
  unfold digitChar
  rw [hn, show 48 + (c.toNat - 48) = c.toNat by omega]
  exact Char.ofNat_toNat c

/-- What the parse of two characters as a number tells about them. -/
theorem parseUint_two (a b : Char) (lo hi n : Nat) (h : parseUint [a, b] lo hi = some n) :
    isDigit a = true ∧ isDigit b = true ∧ n = (a.toNat - 48) * 10 + (b.toNat - 48)
      ∧ lo ≤ n ∧ n ≤ hi := by
  unfold parseUint at h
  simp only [List.all_cons, List.all_nil, Bool.and_true, Bool.and_eq_true, List.foldl_cons,
    List.foldl_nil, Nat.zero_mul, Nat.zero_add] at h
  split at h
  · rename_i hd
    split at h
    · rename_i hr
      simp only [Option.some.injEq] at h
      exact ⟨hd.1, hd.2, h.symm, h ▸ hr.1, h ▸ hr.2⟩
    · simp at h
  · simp at h

/-- What the parse of four characters as a number tells about them. -/
theorem parseUint_four (a b c d : Char) (lo hi n : Nat)
    (h : parseUint [a, b, c, d] lo hi = some n) :
    isDigit a = true ∧ isDigit b = true ∧ isDigit c = true ∧ isDigit d = true
      ∧ n = (((a.toNat - 48) * 10 + (b.toNat - 48)) * 10 + (c.toNat - 48)) * 10 + (d.toNat - 48)
      ∧ lo ≤ n ∧ n ≤ hi := by
  unfold parseUint at h
  simp only [List.all_cons, List.all_nil, Bool.and_true, Bool.and_eq_true, List.foldl_cons,
    List.foldl_nil, Nat.zero_mul, Nat.zero_add] at h
  split at h
  · rename_i hd
    split at h
    · rename_i hr
      simp only [Option.some.injEq] at h
      exact ⟨hd.1, hd.2.1, hd.2.2.1, hd.2.2.2, h.symm, h ▸ hr.1, h ▸ hr.2⟩
    · simp at h
  · simp at h

/-- Two digits are the two-digit form of their value. -/
theorem appendInt_two (a b : Char) (n : Nat) (ha : isDigit a = true) (hb : isDigit b = true)
    (hn : n = (a.toNat - 48) * 10 + (b.toNat - 48)) : appendInt (n : Int) 2 = [a, b] := by
  have h1 := (isDigit_iff a).mp ha
  have h2 := (isDigit_iff b).mp hb
  have hlt : n < 100 := by omega
  unfold appendInt
  simp only [Int.natAbs_ofNat]
  rw [if_neg (by omega), if_pos ⟨trivial, hlt⟩, digitChar_eq a (n / 10) ha (by omega), digitChar_eq b n hb (by omega)]
  rfl

/-- Four digits are the four-digit form of their value. -/
theorem appendInt_four (a b c d : Char) (n : Nat) (ha : isDigit a = true) (hb : isDigit b = true)
    (hc : isDigit c = true) (hd : isDigit d = true)
    (hn : n = (((a.toNat - 48) * 10 + (b.toNat - 48)) * 10 + (c.toNat - 48)) * 10
      + (d.toNat - 48)) : appendInt (n : Int) 4 = [a, b, c, d] := by
  have h1 := (isDigit_iff a).mp ha
  have h2 := (isDigit_iff b).mp hb
  have h3 := (isDigit_iff c).mp hc
  have h4 := (isDigit_iff d).mp hd
  have hlt : n < 10000 := by omega
  unfold appendInt
  simp only [Int.natAbs_ofNat]
  rw [if_neg (by omega), if_neg (by simp), if_pos ⟨trivial, hlt⟩,
    digitChar_eq a (n / 1000) ha (by omega), digitChar_eq b (n / 100) hb (by omega),
    digitChar_eq c (n / 10) hc (by omega), digitChar_eq d n hd (by omega)]
  rfl

/-- The first nineteen characters of a text that long. -/
theorem exists_first19 (s : List Char) (hlen : 19 ≤ s.length) :
    ∃ c0 c1 c2 c3 c4 c5 c6 c7 c8 c9 c10 c11 c12 c13 c14 c15 c16 c17 c18 rest,
      s = c0 :: c1 :: c2 :: c3 :: c4 :: c5 :: c6 :: c7 :: c8 :: c9 :: c10 :: c11 :: c12 :: c13
        :: c14 :: c15 :: c16 :: c17 :: c18 :: rest := by
  rcases s with _ | ⟨c0, s⟩
  · simp at hlen
  rcases s with _ | ⟨c1, s⟩
  · simp at hlen
  rcases s with _ | ⟨c2, s⟩
  · simp at hlen
  rcases s with _ | ⟨c3, s⟩
  · simp at hlen
  rcases s with _ | ⟨c4, s⟩
  · simp at hlen
  rcases s with _ | ⟨c5, s⟩
  · simp at hlen
  rcases s with _ | ⟨c6, s⟩
  · simp at hlen
  rcases s with _ | ⟨c7, s⟩
  · simp at hlen
  rcases s with _ | ⟨c8, s⟩
  · simp at hlen
  rcases s with _ | ⟨c9, s⟩
  · simp at hlen
  rcases s with _ | ⟨c10, s⟩
  · simp at hlen
  rcases s with _ | ⟨c11, s⟩
  · simp at hlen
  rcases s with _ | ⟨c12, s⟩
  · simp at hlen
  rcases s with _ | ⟨c13, s⟩
  · simp at hlen
  rcases s with _ | ⟨c14, s⟩
  · simp at hlen
  rcases s with _ | ⟨c15, s⟩
  · simp at hlen
  rcases s with _ | ⟨c16, s⟩
  · simp at hlen
  rcases s with _ | ⟨c17, s⟩
  · simp at hlen
  rcases s with _ | ⟨c18, s⟩
  · simp at hlen
  exact ⟨c0, c1, c2, c3, c4, c5, c6, c7, c8, c9, c10, c11, c12, c13, c14, c15, c16, c17, c18, s,
    rfl⟩

/-- The timestamp of a time built by `Date` and moved to an offset: the fields given to `Date`. -/
theorem Format_Date (Y : Int) (M D h mi se ns ns2 : Nat) (off : Int)
    (hM1 : 1 ≤ M) (hM2 : M ≤ 12) (hD1 : 1 ≤ D) (hD2 : D ≤ daysIn M Y)
    (hh : h ≤ 23) (hmi : mi ≤ 59) (hse : se ≤ 59) :
    (Time.mk ((Date Y M D h mi se ns).sec - off) ns2 off).Format
      = ⟨appendInt Y 4 ++ ['-'] ++ appendInt (M : Int) 2 ++ ['-'] ++ appendInt (D : Int) 2 ++ [' ']
          ++ appendInt (h : Int) 2 ++ [':'] ++ appendInt (mi : Int) 2 ++ [':']
          ++ appendInt (se : Int) 2⟩ := by
  have hdate := absDate_Date Y M D hM1 hM2 hD1 hD2
  generalize hd : daysBeforeYear Y
      + ((daysBefore (M - 1) + (if isLeap Y = true ∧ 3 ≤ M then 1 else 0) + (D - 1) : Nat) : Int)
      = d at hdate
  have hsec : (Date Y M D h mi se ns).sec - off + off + unixToInternal
      = d * 86400 + ((h * 3600 + mi * 60 + se : Nat) : Int) := by
    simp only [Date]
    rw [← hd]
    push_cast
    ring
  have hq : (d * 86400 + ((h * 3600 + mi * 60 + se : Nat) : Int)) / 86400 = d := by omega
  have hr : ((d * 86400 + ((h * 3600 + mi * 60 + se : Nat) : Int)) % 86400).toNat
      = h * 3600 + mi * 60 + se := by omega
  simp only [Time.Format]
  rw [hsec, hq, hr, hdate]
  have h1 : (h * 3600 + mi * 60 + se) / 3600 = h := by omega
  have h2 : (h * 3600 + mi * 60 + se) % 3600 / 60 = mi := by omega
  have h3 : (h * 3600 + mi * 60 + se) % 60 = se := by omega
  rw [h1, h2, h3]

/-- The timestamp of a time the strict parser accepts is made of the characters of the parsed text:
the date, a blank, the clock. -/
theorem parseRFC3339_Format (s : List Char) (t : Time) (h : parseRFC3339 s = some t) :
    t.Format = ⟨s.take 10 ++ [' '] ++ (s.drop 11).take 8⟩
    ∧ IsTimestampText (s.take 10 ++ [' '] ++ (s.drop 11).take 8) := by
  unfold parseRFC3339 at h
  split at h
  · simp at h
  rename_i hlen
  obtain ⟨c0, c1, c2, c3, c4, c5, c6, c7, c8, c9, c10, c11, c12, c13, c14, c15, c16, c17, c18,
    rest, rfl⟩ := exists_first19 s (by omega)
  simp only [slice, List.drop_succ_cons, List.drop_zero, List.take_succ_cons, List.take_zero,
    Nat.sub_zero, Nat.reduceSub, List.get?_cons_succ, List.get?_cons_zero, Option.some.injEq,
    Option.bind_eq_bind, Option.bind_eq_some] at h
  obtain ⟨Y, hY, M, hM, D, hD, hr, hH, mi, hMi, se, hS, hrest⟩ := h
  split at hrest
  swap
  · simp at hrest
  rename_i hsep
  obtain ⟨rfl, rfl, rfl, rfl, rfl⟩ := hsep
  simp only [Option.bind_eq_some, Option.some.injEq] at hrest
  obtain ⟨off, _, ht⟩ := hrest
  subst ht
  obtain ⟨y0, y1, y2, y3, hYv, _, _⟩ := parseUint_four _ _ _ _ _ _ _ hY
  obtain ⟨m0, m1, hMv, hM1, hM2⟩ := parseUint_two _ _ _ _ _ hM
  obtain ⟨d0, d1, hDv, hD1, hD2⟩ := parseUint_two _ _ _ _ _ hD
  obtain ⟨h0, h1, hHv, _, hH2⟩ := parseUint_two _ _ _ _ _ hH
  obtain ⟨i0, i1, hIv, _, hI2⟩ := parseUint_two _ _ _ _ _ hMi
  obtain ⟨s0, s1, hSv, _, hS2⟩ := parseUint_two _ _ _ _ _ hS
  refine ⟨?_, c0, c1, c2, c3, c5, c6, c8, c9, c11, c12, c14, c15, c17, c18, ?_, rfl⟩
  · rw [Format_Date (Y : Int) M D hr mi se _ _ off hM1 hM2 hD1 hD2 hH2 hI2 hS2,
      appendInt_four c0 c1 c2 c3 Y y0 y1 y2 y3 hYv, appendInt_two c5 c6 M m0 m1 hMv,
      appendInt_two c8 c9 D d0 d1 hDv, appendInt_two c11 c12 hr h0 h1 hHv,
      appendInt_two c14 c15 mi i0 i1 hIv, appendInt_two c17 c18 se s0 s1 hSv]
    rfl
  · intro c hc
    simp only [List.mem_cons, List.mem_singleton, List.not_mem_nil, or_false] at hc
    rcases hc with h | h | h | h | h | h | h | h | h | h | h | h | h | h <;> rw [h] <;>
      assumption

/-! ## Decoding event objects -/

/-- Decoding the members of a repository object of which exactly one, a string, selects `Name`. -/
theorem objectRepo_single (ms : List (List Char × Json)) :
    ∀ (r : Repo),
      (membersOf RepoField.tag [.Name] .Name ms = [] → objectRepo ms r none = (r, none))
      ∧ ∀ raw, membersOf RepoField.tag [.Name] .Name ms = [.str raw] →
          objectRepo ms r none = (⟨unquote raw⟩, none) := by
  induction ms with
  | nil => intro r; simp [membersOf, objectRepo]
  | cons m ms ih =>
    intro r
    obtain ⟨k, v⟩ := m
    cases hl : lookupField RepoField.tag [.Name] (unquote k) with
    | none =>
      have hm : membersOf RepoField.tag [.Name] .Name ((k, v) :: ms)
          = membersOf RepoField.tag [.Name] .Name ms := by
        simp [membersOf, List.filter_cons, hl]
      rw [hm]
      simp only [objectRepo, hl]
      exact ih r
    | some f =>
      cases f
      have hm : membersOf RepoField.tag [.Name] .Name ((k, v) :: ms)
          = v :: membersOf RepoField.tag [.Name] .Name ms := by
        simp [membersOf, List.filter_cons, hl]
      rw [hm]
      refine ⟨fun h => by simp at h, fun raw h => ?_⟩
      simp only [List.cons.injEq] at h
      obtain ⟨hv, hnil⟩ := h
      subst hv
      simp only [objectRepo, hl, storeString]
      exact (ih _).1 hnil

/-- A member whose key selects the field is among the members of the field. -/
theorem membersOf_cons_self {φ : Type} [DecidableEq φ] (tag : φ → String) (fields : List φ)
    (f : φ) (k : List Char) (v : Json) (ms : List (List Char × Json))
    (h : lookupField tag fields (unquote k) = some f) :
    membersOf tag fields f ((k, v) :: ms) = v :: membersOf tag fields f ms := by
  simp [membersOf, List.filter_cons, h]

/-- A member whose key does not select the field is not among the members of the field. -/
theorem membersOf_cons_other {φ : Type} [DecidableEq φ] (tag : φ → String) (fields : List φ)
    (f : φ) (k : List Char) (v : Json) (ms : List (List Char × Json))
    (h : lookupField tag fields (unquote k) ≠ some f) :
    membersOf tag fields f ((k, v) :: ms) = membersOf tag fields f ms := by
  simp [membersOf, List.filter_cons, h]

/-- When a member selects the field, it is the only one and its value is the value of the field. -/
theorem fieldAfter_cons {α : Type} (val : Json → Option α) (cur a : α) (v : Json) (l : List Json)
    (h : fieldAfter val cur (v :: l) = some a) : l = [] ∧ val v = some a := by
  cases l with
  | nil => exact ⟨rfl, h⟩
  | cons x xs => simp [fieldAfter] at h

/-- Decoding the members of an object in which at most one member, of the right kind, selects each
field: no error, and each field holds the value of its member, or what it held before. -/
theorem objectEvent_fields (rt : Runtime) (ms : List (List Char × Json)) :
    ∀ (e : GitHubEvent) (ty : String) (ca : Time) (rp : Repo),
      fieldAfter typeOf? e.Type_ (membersOf EventField.tag [.Type_, .CreatedAt, .Repo] .Type_ ms)
        = some ty →
      fieldAfter createdOf? e.CreatedAt
        (membersOf EventField.tag [.Type_, .CreatedAt, .Repo] .CreatedAt ms) = some ca →
      fieldAfter repoOf? e.Repo (membersOf EventField.tag [.Type_, .CreatedAt, .Repo] .Repo ms)
        = some rp →
      objectEvent rt ms e none = .ok (⟨ty, ca, rp⟩, none) := by
  induction ms with
  | nil =>
    intro e ty ca rp h1 h2 h3
    simp only [membersOf, List.filter_nil, List.map_nil, fieldAfter, Option.some.injEq] at h1 h2 h3
    subst h1 h2 h3
    rfl
  | cons m ms ih =>
    intro e ty ca rp h1 h2 h3
    obtain ⟨k, v⟩ := m
    cases hl : lookupField EventField.tag [.Type_, .CreatedAt, .Repo] (unquote k) with
    | none =>
      rw [membersOf_cons_other _ _ _ _ _ _ (by simp [hl])] at h1 h2 h3
      simp only [objectEvent, hl]
      exact ih e ty ca rp h1 h2 h3
    | some f =>
      cases f with
      | Type_ =>
        rw [membersOf_cons_self _ _ _ _ _ _ hl] at h1
        rw [membersOf_cons_other _ _ _ _ _ _ (by simp [hl])] at h2 h3
        obtain ⟨hnil, hv⟩ := fieldAfter_cons _ _ _ _ _ h1
        cases v <;> simp only [typeOf?, Option.some.injEq, reduceCtorEq] at hv
        subst hv
        simp only [objectEvent, hl, storeString]
        exact ih _ _ ca rp (by rw [hnil]; rfl) h2 h3
      | CreatedAt =>
        rw [membersOf_cons_self _ _ _ _ _ _ hl] at h2
        rw [membersOf_cons_other _ _ _ _ _ _ (by simp [hl])] at h1 h3
        obtain ⟨hnil, hv⟩ := fieldAfter_cons _ _ _ _ _ h2
        cases v <;> simp only [createdOf?, reduceCtorEq] at hv
        simp only [objectEvent, hl, Time.UnmarshalJSON, hv]
        exact ih _ ty _ rp h1 (by rw [hnil]; rfl) h3
      | Repo =>
        rw [membersOf_cons_self _ _ _ _ _ _ hl] at h3
        rw [membersOf_cons_other _ _ _ _ _ _ (by simp [hl])] at h1 h2
        obtain ⟨hnil, hv⟩ := fieldAfter_cons _ _ _ _ _ h3
        cases v with
        | obj rms =>
          simp only [repoOf?] at hv
          split at hv
          · rename_i raw hraw
            simp only [Option.some.injEq] at hv
            subst hv
            simp only [objectEvent, hl, valueRepo, (objectRepo_single rms e.Repo).2 raw hraw]
            exact ih _ ty ca _ h1 h2 (by rw [hnil]; rfl)
          · simp at hv
        | _ => simp [repoOf?] at hv

/-- Decoding an event object into a zero `GitHubEvent` gives the event it denotes. -/
theorem valueEvent_eventObject (rt : Runtime) (j : Json) (e : GitHubEvent)
    (h : IsEventObject j e) : valueEvent rt j GitHubEvent.zero none = .ok (e, none) := by
  obtain ⟨ms, rawType, rawCreated, repoMs, rawName, hj, h1, h2, h3, h4, h5, h6, h7⟩ := h
  subst hj
  simp only [valueEvent]
  have := objectEvent_fields rt ms GitHubEvent.zero e.Type_ e.CreatedAt e.Repo
    (by rw [h1]; simp [fieldAfter, typeOf?, h2])
    (by rw [h3]; simp [fieldAfter, createdOf?, h4])
    (by rw [h5]; simp [fieldAfter, repoOf?, h6, h7])
  exact this

/-- Decoding an array of event objects gives the events they denote, in order. -/
theorem arrayEvents_eventObjects (rt : Runtime) (elems : List Json) (events : List GitHubEvent)
    (h : List.Forall₂ IsEventObject elems events) :
    arrayEvents rt elems none = .ok (events, none) := by
  induction h with
  | nil => rfl
  | cons hj _ ih => simp only [arrayEvents, valueEvent_eventObject rt _ _ hj, ih]


/-! ## The scanner on a body that does not start an array or `null` -/

/-- A frame on top of a non-empty stack does not change the outermost frame. -/
theorem bottomIsObject_cons (f : Frame) (st : List Frame) (h : st ≠ []) :
    bottomIsObject (f :: st) = bottomIsObject st := by
  cases st with
  | nil => exact absurd rfl h
  | cons g rest => rfl

/-- Completing a value keeps the scanner inside an object, or ends a value of another shape. -/
theorem completeValue_inOtherShape (v : Json) (st : List Frame)
    (h0 : st = [] → v.otherShape = true) (h1 : st ≠ [] → bottomIsObject st = true) :
    (completeValue v st).inOtherShape = true := by
  unfold completeValue
  split
  · exact h0 rfl
  · rename_i es st2
    have hb := h1 (by simp)
    cases st2 with
    | nil => simp [bottomIsObject, Frame.isObject] at hb
    | cons f rest => exact hb
  · rename_i ms st2
    have hb := h1 (by simp)
    split
    · cases st2 with
      | nil => rfl
      | cons f rest => exact hb
    · rfl
  · rename_i ms k st2
    have hb := h1 (by simp)
    cases st2 with
    | nil => rfl
    | cons f rest => exact hb
  · rfl

/-- Going on with a non-empty stack whose outermost frame is an object. -/
theorem next_inOtherShape (stp : Step) (st : List Frame) (tok : List Char)
    (h : st ≠ []) (hb : bottomIsObject st = true) :
    (StepResult.next ⟨stp, st, tok⟩).inOtherShape = true := by
  cases st with
  | nil => exact absurd rfl h
  | cons f rest => exact hb

/-- The function `stateEndValue` keeps the scanner inside the outermost object, or ends it. -/
theorem stateEndValue_inOtherShape (st : List Frame) (c : Char) (h : st ≠ [])
    (hb : bottomIsObject st = true) : (stateEndValue st c).inOtherShape = true := by
  unfold stateEndValue
  split
  · exact next_inOtherShape _ _ _ h hb
  · split
    · split
      · rename_i ms k rest _
        apply next_inOtherShape _ _ _ (by simp)
        cases rest with
        | nil => rfl
        | cons f rest2 => exact hb
      · rfl
    · split
      · rename_i ms rest _
        apply next_inOtherShape _ _ _ (by simp)
        cases rest with
        | nil => rfl
        | cons f rest2 => exact hb
      · split
        · rename_i ms rest _ _
          apply completeValue_inOtherShape
          · intro _; rfl
          · intro hne
            rw [bottomIsObject_cons _ _ hne] at hb
            exact hb
        · rfl
    · split
      · exact next_inOtherShape _ _ _ h hb
      · split
        · rename_i es rest _ _
          apply completeValue_inOtherShape
          · intro hnil
            subst hnil
            simp [bottomIsObject, Frame.isObject] at hb
          · intro hne
            rw [bottomIsObject_cons _ _ hne] at hb
            exact hb
        · rfl
    · rfl

/-- The end of a number keeps the scanner inside the outermost object, or ends a number. -/
theorem endNumber_inOtherShape (s : Scanner) (c : Char)
    (hb : s.parseState ≠ [] → bottomIsObject s.parseState = true) :
    (endNumber s c).inOtherShape = true := by
  unfold endNumber
  have hc := completeValue_inOtherShape (.num s.tok.reverse) s.parseState (fun _ => rfl) hb
  split
  · rename_i v heq
    rw [heq] at hc
    exact hc
  · rename_i s1 heq
    rw [heq] at hc
    simp only [StepResult.inOtherShape, Scanner.inOtherShape] at hc
    have hne : s1.parseState ≠ [] := by
      intro h0
      unfold completeValue at heq
      split at heq
      · cases heq
      · cases heq; simp at h0
      · split at heq
        · cases heq; simp at h0
        · cases heq
      · cases heq; simp at h0
      · cases heq
    apply stateEndValue_inOtherShape _ _ hne
    cases hs : s1.parseState with
    | nil => exact absurd hs hne
    | cons f rest => rw [hs] at hc; exact hc
  · rename_i r _ _
    cases r <;> exact hc

/-- Inside a composite the invariant says that the outermost frame is an object. -/
theorem inOtherShape_bottom (s : Scanner) (h : s.inOtherShape = true) :
    s.parseState ≠ [] → bottomIsObject s.parseState = true := by
  intro hne
  cases s with
  | mk stp st tok =>
    cases st with
    | nil => exact absurd rfl hne
    | cons f rest => exact h

/-- The function `stateBeginValue` inside an object keeps the scanner inside it. -/
theorem stateBeginValue_inOtherShape (s : Scanner) (c : Char) (hne : s.parseState ≠ [])
    (hb : bottomIsObject s.parseState = true) : (stateBeginValue s c).inOtherShape = true := by
  have hpush : ∀ (stp : Step) (f : Frame) (tok : List Char),
      (StepResult.next ⟨stp, f :: s.parseState, tok⟩).inOtherShape = true := by
    intro stp f tok
    apply next_inOtherShape _ _ _ (by simp)
    rw [bottomIsObject_cons _ _ hne]
    exact hb
  have hkeep : ∀ (stp : Step) (tok : List Char),
      (StepResult.next ⟨stp, s.parseState, tok⟩).inOtherShape = true :=
    fun stp tok => next_inOtherShape _ _ _ hne hb
  unfold stateBeginValue
  repeat' split
  all_goals first | rfl | exact hpush _ _ _ | exact hkeep _ _

/-- A step keeps the scanner inside a value that is neither an array nor `null`, or ends such a
value. -/
theorem step_inOtherShape (s : Scanner) (c : Char) (h : s.inOtherShape = true) :
    (step s c).inOtherShape = true := by
  have hb := inOtherShape_bottom s h
  have hkeep : ∀ (stp : Step) (tok : List Char), s.parseState ≠ [] →
      (StepResult.next ⟨stp, s.parseState, tok⟩).inOtherShape = true :=
    fun stp tok hne => next_inOtherShape _ _ _ hne (hb hne)
  obtain ⟨stp, st, tok⟩ := s
  cases st with
  | nil =>
    simp only [Scanner.inOtherShape] at h
    cases stp <;> simp only [reduceCtorEq] at h <;>
      simp only [step, state0, stateESign, endNumber, completeValue] <;>
      repeat' split
    all_goals first | rfl | exact h
  | cons f rest =>
    have hne : (f :: rest) ≠ [] := by simp
    have hbo := hb hne
    cases stp <;> simp only [step, state0, stateESign, stateBeginString] <;>
      repeat' split
    all_goals first
      | rfl
      | exact next_inOtherShape _ _ _ hne hbo
      | exact stateEndValue_inOtherShape _ _ hne hbo
      | exact stateBeginValue_inOtherShape _ _ hne hbo
      | exact endNumber_inOtherShape _ _ hb
      | exact completeValue_inOtherShape _ _ (fun h0 => absurd h0 hne) (fun _ => hbo)
      | skip
    rename_i ms rest2 heq
    cases heq
    apply stateEndValue_inOtherShape _ _ (by simp)
    cases rest
    · rfl
    · exact hbo

/-- The value the scanner delivers from inside a value that is neither an array nor `null` is
neither. -/
theorem scanFrom_inOtherShape (input : List Char) :
    ∀ s : Scanner, s.inOtherShape = true →
      ∀ v, scanFrom s input = .ok v → v.otherShape = true := by
  induction input with
  | nil =>
    intro s hs v hv
    obtain ⟨stp, st, tok⟩ := s
    cases st with
    | nil =>
      simp only [Scanner.inOtherShape] at hs
      cases stp <;> simp only [reduceCtorEq] at hs <;> simp only [scanFrom, atEOF] at hv <;>
        first | (cases hv; rfl) | cases hv
    | cons f rest =>
      simp only [scanFrom, atEOF] at hv
      cases hv
  | cons c cs ih =>
    intro s hs v hv
    have hstep := step_inOtherShape s c hs
    simp only [scanFrom] at hv
    split at hv
    · rename_i s1 heq
      rw [heq] at hstep
      exact ih s1 hstep v hv
    · rename_i v1 heq
      rw [heq] at hstep
      cases hv
      exact hstep
    · rename_i v1 heq
      rw [heq] at hstep
      cases hv
      exact hstep
    · cases hv

/-- The scanner skips the white space in front of the first value. -/
theorem scanFrom_dropWhile_isSpace (text : List Char) :
    scanFrom ⟨.beginValue, [], []⟩ text
      = scanFrom ⟨.beginValue, [], []⟩ (text.dropWhile isSpace) := by
  induction text with
  | nil => rfl
  | cons c cs ih =>
    by_cases hc : isSpace c = true
    · rw [List.dropWhile_cons_of_pos hc, ← ih]
      simp only [scanFrom, step, stateBeginValue, hc, if_true]
    · rw [List.dropWhile_cons_of_neg hc]

/-- A body whose first character after white space is neither `[` nor `n`, or that holds white
space only, has no first value that is an array or `null`. -/
theorem readValue_otherShape (text : List Char) (h1 : firstNonSpace text ≠ some '[')
    (h2 : firstNonSpace text ≠ some 'n') :
    ∀ v, readValue text = .ok v → v.otherShape = true := by
  intro v hv
  unfold readValue at hv
  rw [scanFrom_dropWhile_isSpace] at hv
  unfold firstNonSpace at h1 h2
  cases hd : text.dropWhile isSpace with
  | nil =>
    rw [hd] at hv
    cases hv
  | cons c cs =>
    rw [hd] at hv h1 h2
    simp only [List.head?_cons, ne_eq, Option.some.injEq] at h1 h2
    have hns : ¬ isSpace c = true := by
      have := List.head_dropWhile_not isSpace text (by rw [hd]; simp)
      simpa [hd] using this
    have hstep : (step ⟨.beginValue, [], []⟩ c).inOtherShape = true := by
      simp only [step, stateBeginValue]
      rw [if_neg hns]
      repeat' split
      all_goals rfl
    simp only [scanFrom] at hv
    split at hv
    · rename_i s1 heq
      rw [heq] at hstep
      exact scanFrom_inOtherShape cs s1 hstep v hv
    · rename_i v1 heq
      rw [heq] at hstep
      cases hv
      exact hstep
    · rename_i v1 heq
      rw [heq] at hstep
      cases hv
      exact hstep
    · cases hv

/-! ## The scanner and the decoder on the JSON text of an array of events -/

/-- One turn of the loop of `readValue`. -/
theorem scanFrom_cons (s : Scanner) (c : Char) (cs : List Char) :
    scanFrom s (c :: cs) = continueWith (step s c) cs := by
  simp only [scanFrom, continueWith]

/-- The scanner takes white space for white space. -/
theorem isSpace_of_blank (c : Char) (h : c = ' ' ∨ c = '\t' ∨ c = '\n' ∨ c = '\r') :
    isSpace c = true := by
  rcases h with h | h | h | h <;> subst h <;> rfl

/-- The scanner skips white space between tokens. -/
theorem scanFrom_blank (stp : Step) (st : List Frame) (h : stp.skipsSpace = true)
    (w : List Char) (hw : IsBlank w) (t : List Char) :
    scanFrom ⟨stp, st, []⟩ (w ++ t) = scanFrom ⟨stp, st, []⟩ t := by
  induction w with
  | nil => rfl
  | cons c cs ih =>
    have hc := isSpace_of_blank c (hw c (List.mem_cons_self _ _))
    have ih2 := ih (fun x hx => hw x (List.mem_cons_of_mem _ hx))
    rw [List.cons_append, scanFrom_cons, ← ih2]
    cases stp <;> simp only [Step.skipsSpace, reduceCtorEq] at h <;>
      simp only [step, stateBeginValue, stateBeginString, stateEndValue, hc, if_true, continueWith]

/-- A hexadecimal digit is one for the scanner. -/
theorem isHex_hexDigit (n : Nat) (h : n < 16) : isHex (hexDigit n) = true := by
  interval_cases n <;> rfl

/-- Scanning a character that stands for itself inside a string. -/
theorem scanFrom_plain (st : List Frame) (tok : List Char) (c : Char) (t : List Char)
    (h1 : c ≠ '"') (h2 : c ≠ '\\') (h3 : ¬ c.toNat < 32) :
    scanFrom ⟨.inString, st, tok⟩ (c :: t) = scanFrom ⟨.inString, st, c :: tok⟩ t := by
  simp only [scanFrom_cons, step, h1, h2, h3, if_false, continueWith]

/-- Scanning a two-character escape inside a string. -/
theorem scanFrom_short (st : List Frame) (tok : List Char) (x : Char) (t : List Char)
    (h : x = '"' ∨ x = '\\' ∨ x = 'n' ∨ x = 'r' ∨ x = 't') :
    scanFrom ⟨.inString, st, tok⟩ ('\\' :: x :: t)
      = scanFrom ⟨.inString, st, x :: '\\' :: tok⟩ t := by
  rcases h with h | h | h | h | h <;> subst h <;> rfl

/-- Scanning the escape of a control character inside a string. -/
theorem scanFrom_u00 (st : List Frame) (tok : List Char) (a b : Char) (t : List Char)
    (ha : isHex a = true) (hb : isHex b = true) :
    scanFrom ⟨.inString, st, tok⟩ ('\\' :: 'u' :: '0' :: '0' :: a :: b :: t)
      = scanFrom ⟨.inString, st, b :: a :: '0' :: '0' :: 'u' :: '\\' :: tok⟩ t := by
  have h1 : scanFrom ⟨.inString, st, tok⟩ ('\\' :: 'u' :: '0' :: '0' :: a :: b :: t)
      = scanFrom ⟨.inStringEscU 1, st, '0' :: '0' :: 'u' :: '\\' :: tok⟩ (a :: b :: t) := rfl
  rw [h1]
  simp only [scanFrom_cons, step, ha, hb, if_true, continueWith]

/-- Scanning the escaped text of a string from inside the string. -/
theorem scanFrom_escapeAll (s : List Char) :
    ∀ (st : List Frame) (tok : List Char) (t : List Char),
      scanFrom ⟨.inString, st, tok⟩ (escapeAll s ++ '"' :: t)
        = continueWith (completeValue (.str (tok.reverse ++ escapeAll s)) st) t := by
  induction s with
  | nil =>
    intro st tok t
    simp only [escapeAll, List.flatMap_nil, List.nil_append, List.append_nil, scanFrom_cons, step,
      if_true]
  | cons c cs ih =>
    intro st tok t
    have hcons : escapeAll (c :: cs) = escapeJSON c ++ escapeAll cs := by
      simp [escapeAll, List.flatMap_cons]
    rw [hcons, List.append_assoc]
    unfold escapeJSON
    split
    · rw [List.cons_append, List.cons_append, List.nil_append, scanFrom_short _ _ _ _ (by simp),
        ih]
      simp
    split
    · rw [List.cons_append, List.cons_append, List.nil_append, scanFrom_short _ _ _ _ (by simp),
        ih]
      simp
    split
    · rw [List.cons_append, List.cons_append, List.nil_append, scanFrom_short _ _ _ _ (by simp),
        ih]
      simp
    split
    · rw [List.cons_append, List.cons_append, List.nil_append, scanFrom_short _ _ _ _ (by simp),
        ih]
      simp
    split
    · rw [List.cons_append, List.cons_append, List.nil_append, scanFrom_short _ _ _ _ (by simp),
        ih]
      simp
    split
    · rename_i hlt
      simp only [List.cons_append, List.nil_append]
      rw [scanFrom_u00 _ _ _ _ _ (isHex_hexDigit _ (by omega)) (isHex_hexDigit _ (by omega)), ih]
      simp
    · rename_i h1 h2 _ _ _ h3
      rw [List.cons_append, List.nil_append, scanFrom_plain _ _ _ _ h1 h2 h3, ih]
      simp

/-- The value of a hexadecimal digit. -/
theorem hexVal_hexDigit (n : Nat) (h : n < 16) : hexVal (hexDigit n) = n := by
  interval_cases n <;> rfl

/-- A `\u` escape of a control character reads as that character. -/
theorem decodeItems_u16 (n : Nat) (rest : List StrItem) (h : n < 32) :
    decodeItems false (.u16 n :: rest) = Char.ofNat n :: decodeItems false rest := by
  have hs : isSurrogate n = false := by
    simp only [isSurrogate, Bool.and_eq_false_imp, decide_eq_true_eq, decide_eq_false_iff_not]
    omega
  simp only [decodeItems, hs, Bool.false_eq_true, if_false]

/-- Reading the escaped text of a string gives the string back. -/
theorem decodeItems_escapeAll (s : List Char) :
    decodeItems false (strItems .plain (escapeAll s)) = s := by
  induction s with
  | nil => rfl
  | cons c cs ih =>
    have hcons : escapeAll (c :: cs) = escapeJSON c ++ escapeAll cs := by
      simp [escapeAll, List.flatMap_cons]
    rw [hcons]
    unfold escapeJSON
    split
    · rename_i h
      subst h
      show '"' :: decodeItems false (strItems .plain (escapeAll cs)) = _
      rw [ih]
    split
    · rename_i h
      subst h
      show '\\' :: decodeItems false (strItems .plain (escapeAll cs)) = _
      rw [ih]
    split
    · rename_i h
      subst h
      show '\n' :: decodeItems false (strItems .plain (escapeAll cs)) = _
      rw [ih]
    split
    · rename_i h
      subst h
      show '\r' :: decodeItems false (strItems .plain (escapeAll cs)) = _
      rw [ih]
    split
    · rename_i h
      subst h
      show '\t' :: decodeItems false (strItems .plain (escapeAll cs)) = _
      rw [ih]
    split
    · rename_i hlt
      have hitems : strItems .plain
          (['\\', 'u', '0', '0', hexDigit (c.toNat / 16), hexDigit (c.toNat % 16)] ++ escapeAll cs)
          = .u16 (hexVal (hexDigit (c.toNat / 16)) * 16 + hexVal (hexDigit (c.toNat % 16)))
            :: strItems .plain (escapeAll cs) := by
        simp [strItems, hexVal, isDigit]
      rw [hitems, hexVal_hexDigit _ (by omega), hexVal_hexDigit _ (by omega),
        show c.toNat / 16 * 16 + c.toNat % 16 = c.toNat by omega, decodeItems_u16 _ _ hlt, ih,
        Char.ofNat_toNat]
    · rename_i h1 h2 _ _ _ h3
      rw [List.cons_append, List.nil_append]
      simp only [strItems, h2, if_false, decodeItems, ih]

/-- The function `unquote` reads the JSON text of a string as the string. -/
theorem unquote_escapeAll (s : String) : unquote (escapeAll s.data) = s := by
  simp only [unquote, decodeItems_escapeAll]

/-- A digit character is one of the ten digits. -/
theorem digitChar_cases (n : Nat) :
    ∃ k, k < 10 ∧ n % 10 = k ∧ digitChar n = Char.ofNat (48 + k) :=
  ⟨n % 10, Nat.mod_lt _ (by decide), rfl, rfl⟩

/-- The code of a digit. -/
theorem toNat_digit (k : Nat) (h : k < 10) : (Char.ofNat (48 + k)).toNat = 48 + k := by
  interval_cases k <;> rfl

/-- A digit character is a decimal digit. -/
theorem isDigit_digitChar (n : Nat) : isDigit (digitChar n) = true := by
  obtain ⟨k, hk, _, hd⟩ := digitChar_cases n
  rw [hd]
  interval_cases k <;> rfl

/-- The value of a digit character. -/
theorem toNat_digitChar (n : Nat) : (digitChar n).toNat - 48 = n % 10 := by
  obtain ⟨k, hk, hm, hd⟩ := digitChar_cases n
  rw [hd, toNat_digit k hk, hm]
  omega

/-- A digit stands for itself in a JSON string. -/
theorem escapeJSON_digitChar (n : Nat) : escapeJSON (digitChar n) = [digitChar n] := by
  obtain ⟨k, hk, _, hd⟩ := digitChar_cases n
  rw [hd]
  interval_cases k <;> rfl

/-- The two-digit form of a number in range parses as the number. -/
theorem parseUint_two_digits (n lo hi : Nat) (hn : n < 100) (h1 : lo ≤ n) (h2 : n ≤ hi) :
    parseUint (two n) lo hi = some n := by
  have hv : (0 * 10 + ((digitChar (n / 10)).toNat - 48)) * 10 + ((digitChar n).toNat - 48) = n := by
    rw [toNat_digitChar, toNat_digitChar]
    omega
  simp only [parseUint, two, List.all_cons, List.all_nil, isDigit_digitChar, Bool.and_self,
    if_true, List.foldl_cons, List.foldl_nil, hv, h1, h2, and_self]

/-- The four-digit form of a number in range parses as the number. -/
theorem parseUint_four_digits (n lo hi : Nat) (hn : n < 10000) (h1 : lo ≤ n) (h2 : n ≤ hi) :
    parseUint (four n) lo hi = some n := by
  have hv : (((0 * 10 + ((digitChar (n / 1000)).toNat - 48)) * 10
      + ((digitChar (n / 100)).toNat - 48)) * 10 + ((digitChar (n / 10)).toNat - 48)) * 10
      + ((digitChar n).toNat - 48) = n := by
    rw [toNat_digitChar, toNat_digitChar, toNat_digitChar, toNat_digitChar]
    omega
  simp only [parseUint, four, List.all_cons, List.all_nil, isDigit_digitChar, Bool.and_self,
    if_true, List.foldl_cons, List.foldl_nil, hv, h1, h2, and_self]

/-- The text of a valid zone parses as its offset. -/
theorem parseZone_text (z : Zone) (hz : z.Valid) : parseZone z.text = some z.offset := by
  cases z with
  | Z => rfl
  | east h m =>
    obtain ⟨hh, hm⟩ := hz
    have h1 := parseUint_two_digits h 0 23 (by omega) (by omega) hh
    have h2 := parseUint_two_digits m 0 59 (by omega) (by omega) hm
    simp only [two] at h1 h2
    simp [parseZone, Zone.text, two, slice, h1, h2, Zone.offset]
  | west h m =>
    obtain ⟨hh, hm⟩ := hz
    have h1 := parseUint_two_digits h 0 23 (by omega) (by omega) hh
    have h2 := parseUint_two_digits m 0 59 (by omega) (by omega) hm
    simp only [two] at h1 h2
    simp [parseZone, Zone.text, two, slice, h1, h2, Zone.offset]

/-- The text of a zone does not start with a period. -/
theorem zone_head (z : Zone) : ∃ c rest, z.text = c :: rest ∧ c ≠ '.' := by
  cases z with
  | Z => exact ⟨'Z', [], rfl, by decide⟩
  | east h m => exact ⟨'+', _, rfl, by decide⟩
  | west h m => exact ⟨'-', _, rfl, by decide⟩

/-- The fast path of the parser reads the text of a valid time as the instant it denotes. -/
theorem parseRFC3339_text (t : Stamp) (ht : t.Valid) : parseRFC3339 t.text = some t.time := by
  obtain ⟨hy, hm1, hm2, hd1, hd2, hh, hmi, hs, hz⟩ := ht
  have e1 := parseUint_four_digits t.year 0 9999 (by omega) (by omega) hy
  have e2 := parseUint_two_digits t.month 1 12 (by omega) hm1 hm2
  have hd31 : t.day < 100 := by
    have : daysIn t.month t.year ≤ 31 := by
      unfold daysIn
      split
      · omega
      · have := hm2
        interval_cases t.month <;> simp [daysBefore]
    omega
  have e3 := parseUint_two_digits t.day 1 (daysIn t.month t.year) hd31 hd1 hd2
  have e4 := parseUint_two_digits t.hour 0 23 (by omega) (by omega) hh
  have e5 := parseUint_two_digits t.minute 0 59 (by omega) (by omega) hmi
  have e6 := parseUint_two_digits t.second 0 59 (by omega) (by omega) hs
  have ez := parseZone_text t.zone hz
  obtain ⟨c, rest, hzt, hc⟩ := zone_head t.zone
  simp only [four, two] at e1 e2 e3 e4 e5 e6
  simp only [parseRFC3339, Stamp.text, four, two, List.cons_append, List.nil_append,
    List.length_cons, slice, List.drop_succ_cons, List.drop_zero, List.take_succ_cons,
    List.take_zero, Nat.sub_zero, Nat.reduceSub, List.get?_cons_succ, List.get?_cons_zero,
    Option.bind_eq_bind, e1, e2, e3, e4, e5, e6, Option.some_bind, and_self, if_true]
  rw [if_neg (by omega)]
  rw [hzt] at ez ⊢
  simp only [List.head?_cons, Option.some.injEq, hc, false_and, if_false, if_true, ez,
    Option.some_bind, parseNanoseconds, Stamp.time, Date]
  rfl

/-- The characters of the text of a time stand for themselves in a JSON string. -/
theorem escapeAll_text (t : Stamp) : escapeAll t.text = t.text := by
  have hz : escapeAll t.zone.text = t.zone.text := by
    cases t.zone <;>
      simp [Zone.text, two, escapeAll, List.flatMap_cons, escapeJSON_digitChar] <;> rfl
  have happ : ∀ a b : List Char, escapeAll (a ++ b) = escapeAll a ++ escapeAll b := by
    intro a b
    simp [escapeAll, List.flatMap_append]
  have hcons : ∀ (c : Char) (b : List Char), escapeAll (c :: b) = escapeJSON c ++ escapeAll b := by
    intro c b
    simp [escapeAll, List.flatMap_cons]
  have hnil : escapeAll [] = [] := rfl
  simp only [Stamp.text, four, two, happ, hcons, hnil, hz, escapeJSON_digitChar,
    show escapeJSON '-' = ['-'] from rfl, show escapeJSON 'T' = ['T'] from rfl,
    show escapeJSON ':' = [':'] from rfl, List.cons_append, List.nil_append, List.append_nil]

/-- The text of a non-empty list of tokens: white space, the first token, the text of the others. -/
theorem Spaced.cons_inv {tok : List Char} {toks : List (List Char)} {text rest : List Char}
    (h : Spaced (tok :: toks) text rest) :
    ∃ w text2, IsBlank w ∧ Spaced toks text2 rest ∧ text = w ++ tok ++ text2 := by
  cases h with
  | cons w _ _ text2 _ hw hs => exact ⟨w, text2, hw, hs, rfl⟩

/-- The text of no token is what follows. -/
theorem Spaced.nil_inv {text rest : List Char} (h : Spaced [] text rest) : text = rest := by
  cases h
  rfl

/-- The text of two lists of tokens: the text of the first, then the text of the second. -/
theorem Spaced.append_inv (a : List (List Char)) :
    ∀ {b : List (List Char)} {text rest : List Char}, Spaced (a ++ b) text rest →
      ∃ mid, Spaced a text mid ∧ Spaced b mid rest := by
  induction a with
  | nil =>
    intro b text rest h
    exact ⟨text, .nil text, h⟩
  | cons tok toks ih =>
    intro b text rest h
    obtain ⟨w, text2, hw, hs, rfl⟩ := Spaced.cons_inv h
    obtain ⟨mid, h1, h2⟩ := ih hs
    exact ⟨mid, .cons w tok toks text2 mid hw h1, h2⟩

/-- Scanning a one-character token after white space. -/
theorem scanFrom_punct (stp : Step) (st : List Frame) (h : stp.skipsSpace = true)
    (w : List Char) (hw : IsBlank w) (c : Char) (t : List Char) :
    scanFrom ⟨stp, st, []⟩ (w ++ [c] ++ t) = continueWith (step ⟨stp, st, []⟩ c) t := by
  rw [List.append_assoc, scanFrom_blank stp st h w hw, List.singleton_append, scanFrom_cons]

/-- Scanning a string token after white space. -/
theorem scanFrom_string (stp : Step) (st : List Frame) (h : stp.startsString = true)
    (w : List Char) (hw : IsBlank w) (s : String) (t : List Char) :
    scanFrom ⟨stp, st, []⟩ (w ++ quoteJSON s ++ t)
      = continueWith (completeValue (.str (escapeAll s.data)) st) t := by
  have hs : stp.skipsSpace = true := by
    cases stp <;> first | rfl | cases h
  have h1 : step ⟨stp, st, []⟩ '"' = .next ⟨.inString, st, []⟩ := by
    cases stp <;> first | rfl | cases h
  rw [List.append_assoc, scanFrom_blank stp st hs w hw]
  simp only [quoteJSON, List.cons_append, List.append_assoc, List.singleton_append, scanFrom_cons,
    h1, continueWith]
  rw [scanFrom_escapeAll]
  rfl

/-- The scanner enters an object below the nesting limit. -/
theorem step_open (st : List Frame) (h : st.length + 1 ≤ maxNestingDepth) :
    step ⟨.beginValue, st, []⟩ '{' = .next ⟨.beginStringOrEmpty, .objectKey [] none :: st, []⟩ := by
  simp only [step, stateBeginValue, show isSpace '{' = false from rfl, Bool.false_eq_true,
    if_false, if_true, h]

/-- Scanning the object of an event as an element of the top-level array. -/
theorem scanFrom_event (e : EventSpec) (text rest : List Char)
    (h : Spaced (eventTokens e) text rest) (stp : Step)
    (hstp : stp = .beginValue ∨ stp = .beginValueOrEmpty) (acc : List Json) :
    scanFrom ⟨stp, [.array acc], []⟩ text
      = scanFrom ⟨.endValue, [.array (eventJson e :: acc)], []⟩ rest := by
  unfold eventTokens at h
  obtain ⟨w1, x1, hw1, g1, rfl⟩ := Spaced.cons_inv h
  obtain ⟨w2, x2, hw2, g2, rfl⟩ := Spaced.cons_inv g1
  obtain ⟨w3, x3, hw3, g3, rfl⟩ := Spaced.cons_inv g2
  obtain ⟨w4, x4, hw4, g4, rfl⟩ := Spaced.cons_inv g3
  obtain ⟨w5, x5, hw5, g5, rfl⟩ := Spaced.cons_inv g4
  obtain ⟨w6, x6, hw6, g6, rfl⟩ := Spaced.cons_inv g5
  obtain ⟨w7, x7, hw7, g7, rfl⟩ := Spaced.cons_inv g6
  obtain ⟨w8, x8, hw8, g8, rfl⟩ := Spaced.cons_inv g7
  obtain ⟨w9, x9, hw9, g9, rfl⟩ := Spaced.cons_inv g8
  obtain ⟨w10, x10, hw10, g10, rfl⟩ := Spaced.cons_inv g9
  obtain ⟨w11, x11, hw11, g11, rfl⟩ := Spaced.cons_inv g10
  obtain ⟨w12, x12, hw12, g12, rfl⟩ := Spaced.cons_inv g11
  obtain ⟨w13, x13, hw13, g13, rfl⟩ := Spaced.cons_inv g12
  obtain ⟨w14, x14, hw14, g14, rfl⟩ := Spaced.cons_inv g13
  obtain ⟨w15, x15, hw15, g15, rfl⟩ := Spaced.cons_inv g14
  obtain ⟨w16, x16, hw16, g16, rfl⟩ := Spaced.cons_inv g15
  obtain ⟨w17, x17, hw17, g17, rfl⟩ := Spaced.cons_inv g16
  have := Spaced.nil_inv g17
  subst this
  have hskip : stp.skipsSpace = true := by
    rcases hstp with h | h <;> subst h <;> rfl
  have hopen : step ⟨stp, [.array acc], []⟩ '{'
      = .next ⟨.beginStringOrEmpty, [.objectKey [] none, .array acc], []⟩ := by
    rcases hstp with h | h <;> subst h <;> rfl
  rw [scanFrom_punct _ _ hskip w1 hw1, hopen]
  simp only [continueWith]
  rw [scanFrom_string .beginStringOrEmpty _ rfl w2 hw2]
  simp only [continueWith, completeValue]
  rw [scanFrom_punct .endValue _ rfl w3 hw3]
  simp only [continueWith, step, stateEndValue, show isSpace ':' = false from rfl,
    Bool.false_eq_true, if_false, if_true]
  rw [scanFrom_string .beginValue _ rfl w4 hw4]
  simp only [continueWith, completeValue]
  rw [scanFrom_punct .endValue _ rfl w5 hw5]
  simp only [continueWith, step, stateEndValue, show isSpace ',' = false from rfl,
    Bool.false_eq_true, if_false, if_true]
  rw [scanFrom_string .beginString _ rfl w6 hw6]
  simp only [continueWith, completeValue]
  rw [scanFrom_punct .endValue _ rfl w7 hw7]
  simp only [continueWith, step, stateEndValue, show isSpace ':' = false from rfl,
    Bool.false_eq_true, if_false, if_true]
  rw [scanFrom_string .beginValue _ rfl w8 hw8]
  simp only [continueWith, completeValue]
  rw [scanFrom_punct .endValue _ rfl w9 hw9]
  simp only [continueWith, step, stateEndValue, show isSpace ',' = false from rfl,
    Bool.false_eq_true, if_false, if_true]
  rw [scanFrom_string .beginString _ rfl w10 hw10]
  simp only [continueWith, completeValue]
  rw [scanFrom_punct .endValue _ rfl w11 hw11]
  simp only [continueWith, step, stateEndValue, show isSpace ':' = false from rfl,
    Bool.false_eq_true, if_false, if_true]
  rw [scanFrom_punct .beginValue _ rfl w12 hw12]
  rw [step_open _ (by simp [maxNestingDepth])]
  simp only [continueWith]
  rw [scanFrom_string .beginStringOrEmpty _ rfl w13 hw13]
  simp only [continueWith, completeValue]
  rw [scanFrom_punct .endValue _ rfl w14 hw14]
  simp only [continueWith, step, stateEndValue, show isSpace ':' = false from rfl,
    Bool.false_eq_true, if_false, if_true]
  rw [scanFrom_string .beginValue _ rfl w15 hw15]
  simp only [continueWith, completeValue]
  rw [scanFrom_punct .endValue _ rfl w16 hw16]
  simp only [continueWith, step, stateEndValue, show isSpace '}' = false from rfl,
    Bool.false_eq_true, if_false, if_true, show ¬ ('}' = ',') by decide, completeValue]
  rw [scanFrom_punct .endValue _ rfl w17 hw17]
  simp only [continueWith, step, stateEndValue, show isSpace '}' = false from rfl,
    Bool.false_eq_true, if_false, if_true, show ¬ ('}' = ',') by decide, completeValue]
  rfl

/-- Scanning what follows an element of the top-level array. -/
theorem scanFrom_more (es : List EventSpec) :
    ∀ (text rest : List Char), Spaced (moreTokens es) text rest → ∀ acc : List Json,
      scanFrom ⟨.endValue, [.array acc], []⟩ text = .ok (.arr (acc.reverse ++ es.map eventJson)) := by
  induction es with
  | nil =>
    intro text rest h acc
    obtain ⟨w, x, hw, _, rfl⟩ := Spaced.cons_inv h
    rw [scanFrom_punct .endValue _ rfl w hw]
    simp [continueWith, step, stateEndValue, show isSpace ']' = false from rfl, completeValue]
  | cons e es ih =>
    intro text rest h acc
    obtain ⟨w, x, hw, g, rfl⟩ := Spaced.cons_inv h
    obtain ⟨mid, g1, g2⟩ := Spaced.append_inv _ g
    rw [scanFrom_punct .endValue _ rfl w hw]
    simp only [continueWith, step, stateEndValue, show isSpace ',' = false from rfl,
      Bool.false_eq_true, if_false, if_true]
    rw [scanFrom_event e x mid g1 .beginValue (Or.inl rfl), ih mid rest g2]
    simp

/-- The scanner delimits the text of an array of events as the array of their objects. -/
theorem readValue_arrayText (es : List EventSpec) (text rest : List Char)
    (h : Spaced (arrayTokens es) text rest) : readValue text = .ok (.arr (es.map eventJson)) := by
  unfold readValue
  cases es with
  | nil =>
    obtain ⟨w1, x1, hw1, g, rfl⟩ := Spaced.cons_inv h
    obtain ⟨w2, x2, hw2, _, rfl⟩ := Spaced.cons_inv g
    rw [scanFrom_punct .beginValue _ rfl w1 hw1]
    rw [show step ⟨.beginValue, [], []⟩ '[' = .next ⟨.beginValueOrEmpty, [.array []], []⟩ from rfl]
    simp only [continueWith]
    rw [scanFrom_punct .beginValueOrEmpty _ rfl w2 hw2]
    rfl
  | cons e es =>
    obtain ⟨w1, x1, hw1, g, rfl⟩ := Spaced.cons_inv h
    obtain ⟨mid, g1, g2⟩ := Spaced.append_inv _ g
    rw [scanFrom_punct .beginValue _ rfl w1 hw1]
    rw [show step ⟨.beginValue, [], []⟩ '[' = .next ⟨.beginValueOrEmpty, [.array []], []⟩ from rfl]
    simp only [continueWith]
    rw [scanFrom_event e x1 mid g1 .beginValueOrEmpty (Or.inr rfl), scanFrom_more es mid rest g2]
    rfl

/-- The object of an event with a valid creation time is an event object that denotes it. -/
theorem isEventObject_eventJson (e : EventSpec) (h : e.created.Valid) :
    IsEventObject (eventJson e) e.event :=
  ⟨_, _, _, _, _, rfl, rfl, unquote_escapeAll e.type_, rfl,
    by rw [escapeAll_text]; exact parseRFC3339_text e.created h, rfl, rfl,
    unquote_escapeAll e.repoName⟩

/-- The objects of events with valid creation times denote the events, in order. -/
theorem forall₂_eventJson (es : List EventSpec) (h : ∀ e ∈ es, e.created.Valid) :
    List.Forall₂ IsEventObject (es.map eventJson) (es.map EventSpec.event) := by
  induction es with
  | nil => exact .nil
  | cons e es ih =>
    exact .cons (isEventObject_eventJson e (h e (List.mem_cons_self _ _)))
      (ih fun x hx => h x (List.mem_cons_of_mem _ hx))

/-- A text from which the token was stripped starts with the token. -/
theorem stripToken_eq (tok : List Char) :
    ∀ (text t : List Char), stripToken tok text = some t → text = tok ++ t := by
  induction tok with
  | nil =>
    intro text t h
    simp only [stripToken, Option.some.injEq] at h
    rw [h, List.nil_append]
  | cons c tok ih =>
    intro text t h
    cases text with
    | nil => simp [stripToken] at h
    | cons d text =>
      simp only [stripToken] at h
      split at h
      · rename_i hcd
        rw [hcd, List.cons_append, ih text t h]
      · cases h

/-- The white space in front of a text is white space. -/
theorem isBlank_takeWhile (text : List Char) : IsBlank (text.takeWhile isBlankChar) := by
  intro c hc
  have := List.mem_takeWhile_imp hc
  simp only [isBlankChar, Bool.or_eq_true, decide_eq_true_eq] at this
  tauto

/-- A text that matches the tokens consists of them, each after optional white space. -/
theorem matchSpaced_sound (toks : List (List Char)) :
    ∀ (text rest : List Char), matchSpaced toks text = some rest → Spaced toks text rest := by
  induction toks with
  | nil =>
    intro text rest h
    simp only [matchSpaced, Option.some.injEq] at h
    rw [h]
    exact .nil rest
  | cons tok toks ih =>
    intro text rest h
    simp only [matchSpaced] at h
    split at h
    · rename_i t ht
      have h1 := stripToken_eq tok _ t ht
      have h2 : text = text.takeWhile isBlankChar ++ tok ++ t := by
        rw [List.append_assoc, ← h1, List.takeWhile_append_dropWhile]
      rw [h2]
      exact .cons _ tok toks t rest (isBlank_takeWhile text) (ih t rest h)
    · cases h

/-! ## The fetcher -/

/-- A response whose status code is not 200 gives the status error: the body is not decoded. -/
theorem GetRecentActivity_status (rt : Runtime) (s : DefaultGitHubService) (username : String)
    (resp : Response) (hu : username ≠ "")
    (hresp : s.client.roundTrip (eventsURL username) = .ok resp)
    (hc : resp.StatusCode ≠ StatusOK) :
    (s.GetRecentActivity rt username).1
      = ([], some (.New ("GitHub API returned status: " ++ formatInt resp.StatusCode))) := by
  simp only [eventsURL] at hresp
  simp [DefaultGitHubService.GetRecentActivity, hu, Client.Get, hresp, hc]

/-- A status-200 response is decoded, and the outcome of `Decode` is the outcome of the call. -/
theorem GetRecentActivity_decode (rt : Runtime) (s : DefaultGitHubService) (username : String)
    (body : String) (hu : username ≠ "")
    (hresp : s.client.roundTrip (eventsURL username) = .ok ⟨200, body⟩) :
    (s.GetRecentActivity rt username).1
      = match Decode rt body with
        | .error f =>
            ([], some (.Wrapped "failed to decode response: " (.New (rt.decodeErrorText f))))
        | .ok events => (events, none) := by
  simp only [eventsURL] at hresp
  simp only [DefaultGitHubService.GetRecentActivity, hu, if_false, Client.Get, hresp, StatusOK]
  cases Decode rt body <;> simp

/-- C1: for the empty username the production fetcher returns no events and an error whose
message is exactly `username cannot be empty`, and it issues no request: whatever the client,
the requests issued through it after the call are those issued before. -/
theorem getRecentActivity_empty_username (rt : Runtime) (s : DefaultGitHubService) :
    (s.GetRecentActivity rt "").1 = ([], some (.New "username cannot be empty"))
    ∧ (s.GetRecentActivity rt "").1.2.map GoError.Error = some "username cannot be empty"
    ∧ (s.GetRecentActivity rt "").2.client.requests = s.client.requests := by
  simp [DefaultGitHubService.GetRecentActivity, GoError.Error]

/-- C2: for a non-empty username and a response whose status code `c` is not a 2xx status, the
production fetcher returns no events and an error whose message is `GitHub API returned status: `
followed by `c` in decimal; the result is the same for every other body with that status code,
and for every behaviour of the decoder. -/
theorem getRecentActivity_non_2xx_status (rt : Runtime) (s : DefaultGitHubService)
    (username : String) (resp : Response) (hu : username ≠ "")
    (hresp : s.client.roundTrip (eventsURL username) = .ok resp)
    (hc : ¬ (200 ≤ resp.StatusCode ∧ resp.StatusCode ≤ 299)) :
    (s.GetRecentActivity rt username).1
        = ([], some (.New ("GitHub API returned status: " ++ formatInt resp.StatusCode)))
    ∧ (s.GetRecentActivity rt username).1.2.map GoError.Error
        = some ("GitHub API returned status: " ++ formatInt resp.StatusCode)
    ∧ ∀ (rt2 : Runtime) (s2 : DefaultGitHubService) (body2 : String),
        s2.client.roundTrip (eventsURL username) = .ok ⟨resp.StatusCode, body2⟩ →
        (s2.GetRecentActivity rt2 username).1 = (s.GetRecentActivity rt username).1 := by
  have h200 : resp.StatusCode ≠ StatusOK := by
    intro h
    apply hc
    rw [h]
    decide
  have h1 := GetRecentActivity_status rt s username resp hu hresp h200
  refine ⟨h1, ?_, ?_⟩
  · rw [h1]
    rfl
  · intro rt2 s2 body2 h2
    rw [h1, GetRecentActivity_status rt2 s2 username ⟨resp.StatusCode, body2⟩ hu h2 h200]

/-- C2, witness: status 404 with body `{}` gives `GitHub API returned status: 404`. -/
theorem getRecentActivity_non_2xx_status_witness :
    ((DefaultGitHubService.mk (mockServerClient "\x7b\x7d" 404)).GetRecentActivity sampleRuntime
        "nonexistent_user").1.2.map GoError.Error
      = some "GitHub API returned status: 404" :=
  (getRecentActivity_non_2xx_status sampleRuntime ⟨mockServerClient "\x7b\x7d" 404⟩
    "nonexistent_user" ⟨404, "\x7b\x7d"⟩ (by decide) rfl (by decide)).2.1

/-- C9: for a non-empty username and a response whose status code is anything but 200, the
other 2xx codes included, the production fetcher returns no events and the error
`GitHub API returned status: ` followed by the code; neither the body nor the decoder has a part
in the result. -/
theorem getRecentActivity_status_not_200 (rt : Runtime) (s : DefaultGitHubService)
    (username : String) (resp : Response) (hu : username ≠ "")
    (hresp : s.client.roundTrip (eventsURL username) = .ok resp)
    (hc : resp.StatusCode ≠ 200) :
    (s.GetRecentActivity rt username).1
        = ([], some (.New ("GitHub API returned status: " ++ formatInt resp.StatusCode)))
    ∧ ∀ (rt2 : Runtime) (s2 : DefaultGitHubService) (body2 : String),
        s2.client.roundTrip (eventsURL username) = .ok ⟨resp.StatusCode, body2⟩ →
        (s2.GetRecentActivity rt2 username).1
          = ([], some (.New ("GitHub API returned status: " ++ formatInt resp.StatusCode))) :=
  ⟨GetRecentActivity_status rt s username resp hu hresp hc,
    fun rt2 s2 body2 h2 =>
      GetRecentActivity_status rt2 s2 username ⟨resp.StatusCode, body2⟩ hu h2 hc⟩

/-- C9, witness: status 201 with the well-formed body `[]` gives the status error. -/
theorem getRecentActivity_status_not_200_witness :
    ((DefaultGitHubService.mk (mockServerClient "[]" 201)).GetRecentActivity sampleRuntime
        "octocat").1
      = ([], some (.New "GitHub API returned status: 201")) :=
  (getRecentActivity_status_not_200 sampleRuntime ⟨mockServerClient "[]" 201⟩ "octocat"
    ⟨201, "[]"⟩ (by decide) rfl (by decide)).1

/-- C10: the test double with base URL `https://api.github.com` and the production fetcher, given
the same client, return the same events and the same error and leave the client in the same
state (the same requests issued), for every username and every behaviour of the client. More
generally, for any base URL, the test double returns what the production fetcher returns
whenever its client answers the request of the test double as the client of the production
fetcher answers the production request. -/
theorem mock_eq_default (rt : Runtime) (c : Client) (username : String) :
    ((MockGitHubService.mk "https://api.github.com" c).GetRecentActivity rt username).1
      = ((DefaultGitHubService.mk c).GetRecentActivity rt username).1
    ∧ ((MockGitHubService.mk "https://api.github.com" c).GetRecentActivity rt username).2.client
      = ((DefaultGitHubService.mk c).GetRecentActivity rt username).2.client
    ∧ ((MockGitHubService.mk "https://api.github.com" c).GetRecentActivity rt username).2.baseURL
      = "https://api.github.com"
    ∧ ∀ (baseURL : String) (c2 : Client),
        c2.roundTrip (baseURL ++ "/users/" ++ username ++ "/events")
          = c.roundTrip (eventsURL username) →
        ((MockGitHubService.mk baseURL c2).GetRecentActivity rt username).1
          = ((DefaultGitHubService.mk c).GetRecentActivity rt username).1 := by
  have hurl : "https://api.github.com" ++ "/users/" ++ username ++ "/events"
      = "https://api.github.com/users/" ++ username ++ "/events" := rfl
  unfold DefaultGitHubService.GetRecentActivity MockGitHubService.GetRecentActivity
  by_cases hu : username = ""
  · simp [hu]
  · simp only [hu, if_false, Client.Get, hurl, eventsURL]
    refine ⟨?_, ?_, ?_, ?_⟩
    · cases c.roundTrip ("https://api.github.com/users/" ++ username ++ "/events") with
      | error e => rfl
      | ok resp =>
        dsimp only
        split
        · rfl
        · cases Decode rt resp.Body <;> rfl
    · cases c.roundTrip ("https://api.github.com/users/" ++ username ++ "/events") with
      | error e => rfl
      | ok resp =>
        dsimp only
        split
        · rfl
        · cases Decode rt resp.Body <;> rfl
    · cases c.roundTrip ("https://api.github.com/users/" ++ username ++ "/events") with
      | error e => rfl
      | ok resp =>
        dsimp only
        split
        · rfl
        · cases Decode rt resp.Body <;> rfl
    · intro baseURL c2 h2
      rw [h2]
      cases c.roundTrip ("https://api.github.com/users/" ++ username ++ "/events") with
      | error e => rfl
      | ok resp =>
        dsimp only
        split
        · rfl
        · cases Decode rt resp.Body <;> rfl

/-- C10, witness: the test double bound to a local mock server that answers with the body of
the Success test returns what the production fetcher returns for that answer. -/
theorem mock_eq_default_witness :
    ((MockGitHubService.mk "http://127.0.0.1:8080" (mockServerClient successBody 200)).GetRecentActivity
        sampleRuntime "octocat").1
      = ((NewGitHubService (mockServerClient successBody 200)).GetRecentActivity sampleRuntime
        "octocat").1 :=
  (mock_eq_default sampleRuntime (mockServerClient successBody 200) "octocat").2.2.2
    "http://127.0.0.1:8080" (mockServerClient successBody 200) rfl

/-- C4, counterexample: with status 200 the body `null`, a well-formed JSON value that is not an
array, gives no error (and no events); so does the malformed body `[]]`, of which the decoder
reads the first value only. -/
theorem getRecentActivity_null_body :
    ((DefaultGitHubService.mk (mockServerClient "null" 200)).GetRecentActivity sampleRuntime
        "octocat").1 = ([], none)
    ∧ ((DefaultGitHubService.mk (mockServerClient "[]]" 200)).GetRecentActivity sampleRuntime
        "octocat").1 = ([], none) := by
  decide

/-- C4, amended: for a non-empty username and a status-200 response of which the first JSON
value, as the decoder delimits it, is neither an array nor `null` (it is malformed or missing,
or it is an object, a string, a number or a boolean), the production fetcher returns no events
and an error whose message is `failed to decode response: ` followed by the message of the
decoder's error, which is the scanner's error or an `UnmarshalTypeError`. This covers every body
whose first character after white space is neither `[` nor `n`, and every body of white space
only. -/
theorem getRecentActivity_neither_array_nor_null (rt : Runtime) (s : DefaultGitHubService)
    (username : String) (body : String) (hu : username ≠ "")
    (hresp : s.client.roundTrip (eventsURL username) = .ok ⟨200, body⟩)
    (hshape : (firstNonSpace body.data ≠ some '[' ∧ firstNonSpace body.data ≠ some 'n')
        ∨ ((∀ elems, readValue body.data ≠ .ok (.arr elems))
          ∧ readValue body.data ≠ .ok .null)) :
    ∃ f, (s.GetRecentActivity rt username).1
        = ([], some (.Wrapped "failed to decode response: " (.New (rt.decodeErrorText f))))
      ∧ (s.GetRecentActivity rt username).1.2.map GoError.Error
        = some ("failed to decode response: " ++ rt.decodeErrorText f)
      ∧ (readValue body.data = .error f
          ∨ (f = .UnmarshalType ∧ ∃ v, readValue body.data = .ok v)) := by
  have hother : ∀ v, readValue body.data = .ok v → v.otherShape = true := by
    rcases hshape with ⟨h1, h2⟩ | ⟨h1, h2⟩
    · exact readValue_otherShape body.data h1 h2
    · intro v hv
      cases v with
      | null => exact absurd hv h2
      | arr elems => exact absurd hv (h1 elems)
      | bool b => rfl
      | num raw => rfl
      | str raw => rfl
      | obj ms => rfl
  have h1 := GetRecentActivity_decode rt s username body hu hresp
  have key : ∃ f, Decode rt body = .error f
      ∧ (readValue body.data = .error f
          ∨ (f = .UnmarshalType ∧ ∃ v, readValue body.data = .ok v)) := by
    unfold Decode
    cases hr : readValue body.data with
    | error f => exact ⟨f, rfl, Or.inl rfl⟩
    | ok v =>
      have hv := hother v hr
      cases v with
      | null => cases hv
      | arr elems => cases hv
      | bool b => exact ⟨.UnmarshalType, rfl, Or.inr ⟨rfl, _, rfl⟩⟩
      | num raw => exact ⟨.UnmarshalType, rfl, Or.inr ⟨rfl, _, rfl⟩⟩
      | str raw => exact ⟨.UnmarshalType, rfl, Or.inr ⟨rfl, _, rfl⟩⟩
      | obj ms => exact ⟨.UnmarshalType, rfl, Or.inr ⟨rfl, _, rfl⟩⟩
  obtain ⟨f, hf, hor⟩ := key
  rw [hf] at h1
  refine ⟨f, h1, ?_, hor⟩
  rw [h1]
  rfl

/-- C4, witness: the malformed body of `TestGitHubService_GetRecentActivity_InvalidJSON`, which
starts with `{`: the scanner's syntax error, wrapped. -/
theorem getRecentActivity_neither_array_nor_null_witness :
    ((DefaultGitHubService.mk (mockServerClient invalidBody 200)).GetRecentActivity
        sampleRuntime "octocat").1
      = ([], some (.Wrapped "failed to decode response: " (.New "invalid character")))
    ∧ ((DefaultGitHubService.mk (mockServerClient invalidBody 200)).GetRecentActivity
        sampleRuntime "octocat").1.2.map GoError.Error
      = some "failed to decode response: invalid character" := by
  obtain ⟨f, h1, h2, h3⟩ := getRecentActivity_neither_array_nor_null sampleRuntime
    ⟨mockServerClient invalidBody 200⟩ "octocat" invalidBody (by decide) rfl
    (Or.inl ⟨by decide, by decide⟩)
  have hr : readValue invalidBody.data = .error .SyntaxError := rfl
  have hf : f = .SyntaxError := by
    rw [hr] at h3
    rcases h3 with h | ⟨_, v, h⟩
    · cases h
      rfl
    · cases h
  subst hf
  exact ⟨h1, h2⟩

/-! ## The printer -/

/-- The month and the day of a day of the year have at most two digits. -/
theorem monthDay_lt (leap : Bool) (yday : Nat) (h : yday < 366) :
    (monthDay leap yday).1 < 100 ∧ (monthDay leap yday).2 < 100 := by
  cases leap <;> interval_cases yday <;> decide

/-- The day of the year that `absDate` computes is below 366. -/
theorem yday_lt (days : Int) :
    let d1 := days % 146097
    let n100 := d1 / 36524 - d1 / 36524 / 4
    let d2 := d1 - 36524 * n100
    let n4 := d2 / 1461
    let d3 := d2 - 1461 * n4
    let n1 := d3 / 365 - d3 / 365 / 4
    (d3 - 365 * n1).toNat < 366 := by
  intro d1 n100 d2 n4 d3 n1
  have h1 : 0 ≤ d1 ∧ d1 < 146097 := by
    show 0 ≤ days % 146097 ∧ days % 146097 < 146097
    omega
  clear_value d1
  have h2 : 0 ≤ d2 ∧ d2 ≤ 36524 := by
    show 0 ≤ d1 - 36524 * (d1 / 36524 - d1 / 36524 / 4)
      ∧ d1 - 36524 * (d1 / 36524 - d1 / 36524 / 4) ≤ 36524
    omega
  clear_value d2
  have h3 : 0 ≤ d3 ∧ d3 < 1461 := by
    show 0 ≤ d2 - 1461 * (d2 / 1461) ∧ d2 - 1461 * (d2 / 1461) < 1461
    omega
  clear_value d3
  show (d3 - 365 * (d3 / 365 - d3 / 365 / 4)).toNat < 366
  omega

/-- The function `appendInt` with width 2 on a number below 100. -/
theorem appendInt_two_lt (n : Nat) (h : n < 100) : appendInt (n : Int) 2 = two n := by
  unfold appendInt
  simp only [Int.natAbs_ofNat]
  rw [if_neg (by omega), if_pos ⟨trivial, h⟩]
  rfl

/-- The function `appendInt` with width 4 on a year of four digits. -/
theorem appendInt_four_year (y : Int) (h0 : 0 ≤ y) (h1 : y ≤ 9999) :
    appendInt y 4 = four y.toNat := by
  unfold appendInt
  have hn : y.natAbs = y.toNat := by omega
  rw [if_neg (by omega)]
  simp only [hn]
  rw [if_neg (by simp), if_pos ⟨trivial, by omega⟩]
  rfl

/-- For a year of four digits the timestamp has the form `dddd-dd-dd dd:dd:dd`. -/
theorem Format_shape (t : Time) (h0 : 0 ≤ t.Year) (h1 : t.Year ≤ 9999) :
    IsTimestampText t.Format.data := by
  unfold Time.Year at h0 h1
  have hyd := yday_lt ((t.sec + t.offset + unixToInternal) / 86400)
  simp only at hyd
  have hmd := monthDay_lt
    (isLeap (absDate ((t.sec + t.offset + unixToInternal) / 86400)).1) _ hyd
  have hs : ((t.sec + t.offset + unixToInternal) % 86400).toNat < 86400 := by omega
  simp only [Time.Format]
  generalize ((t.sec + t.offset + unixToInternal) % 86400).toNat = s at hs
  have hm : (absDate ((t.sec + t.offset + unixToInternal) / 86400)).2.1 < 100 := hmd.1
  have hd : (absDate ((t.sec + t.offset + unixToInternal) / 86400)).2.2 < 100 := hmd.2
  generalize absDate ((t.sec + t.offset + unixToInternal) / 86400) = date at h0 h1 hm hd
  rw [appendInt_four_year _ h0 h1, appendInt_two_lt _ hm, appendInt_two_lt _ hd,
    appendInt_two_lt (s / 3600) (by omega), appendInt_two_lt (s % 3600 / 60) (by omega),
    appendInt_two_lt (s % 60) (by omega)]
  refine ⟨_, _, _, _, _, _, _, _, _, _, _, _, _, _, ?_, rfl⟩
  intro c hc
  simp only [List.mem_cons, List.mem_singleton, List.not_mem_nil, or_false] at hc
  rcases hc with h | h | h | h | h | h | h | h | h | h | h | h | h | h <;> rw [h] <;>
    exact isDigit_digitChar _


/-- Joining a list of strings: the first, then the join of the others. -/
theorem String_join_cons (a : String) (l : List String) :
    String.join (a :: l) = a ++ String.join l := by
  rw [String.join_eq, String.join_eq]
  rfl

/-- The loop of `PrintRecentActivity` appends the lines of the events in order. -/
theorem foldl_Printf (events : List GitHubEvent) :
    ∀ p : Process, events.foldl (fun q event => q.Printf (eventLine event)) p
      = { p with stdout := p.stdout ++ String.join (events.map eventLine) } := by
  induction events with
  | nil =>
    intro p
    show p = { p with stdout := p.stdout ++ "" }
    rw [String.append_empty]
  | cons e es ih =>
    intro p
    rw [List.foldl_cons, ih, List.map_cons, String_join_cons]
    simp only [Process.Printf, String.append_assoc]

/-- C5: when the call of the service succeeds with events, `PrintRecentActivity` appends to
standard output the header line `Recent activity for user ` ++ username ++ `:` and then, for
each event in the given order, the line `- ` ++ type ++ ` on ` ++ repository name ++ ` at ` ++
timestamp in the layout `2006-01-02 15:04:05`; it writes nothing else and does not exit. With no
event the header line is all it writes. For a creation time in a year of four digits the
timestamp has the form `dddd-dd-dd dd:dd:dd`. -/
theorem printRecentActivity_success (rt : Runtime) (username : String) (service : GitHubService)
    (events : List GitHubEvent) (p : Process) (h : service username = (events, none)) :
    PrintRecentActivity rt username service p
      = { p with
          stdout := p.stdout ++ ("Recent activity for user " ++ username ++ ":\n")
            ++ String.join (events.map fun e =>
                "- " ++ e.Type_ ++ " on " ++ e.Repo.Name ++ " at " ++ e.CreatedAt.Format ++ "\n") }
    ∧ (events = [] → PrintRecentActivity rt username service p
        = { p with stdout := p.stdout ++ ("Recent activity for user " ++ username ++ ":\n") })
    ∧ (∀ e ∈ events, 0 ≤ e.CreatedAt.Year → e.CreatedAt.Year ≤ 9999 →
        IsTimestampText e.CreatedAt.Format.data) := by
  have h1 : PrintRecentActivity rt username service p
      = { p with
          stdout := p.stdout ++ ("Recent activity for user " ++ username ++ ":\n")
            ++ String.join (events.map eventLine) } := by
    simp only [PrintRecentActivity, h]
    rw [foldl_Printf]
    rfl
  refine ⟨h1, ?_, fun e _ h0 h9 => Format_shape e.CreatedAt h0 h9⟩
  intro hnil
  rw [h1, hnil]
  show _ = _
  simp [String.join]

/-- C5, witness: the end-to-end example, `octocat` with one `PushEvent` on `example/repo1`
created at `2023-10-10T14:12:15Z`, fetched by the production fetcher and printed. -/
theorem printRecentActivity_success_witness :
    PrintRecentActivity sampleRuntime "octocat"
        ((DefaultGitHubService.mk (mockServerClient octocatBody 200)).service sampleRuntime)
        Process.start
      = ⟨"Recent activity for user octocat:\n- PushEvent on example/repo1 at 2023-10-10 14:12:15\n",
          "", none⟩ :=
  (printRecentActivity_success sampleRuntime "octocat"
    ((DefaultGitHubService.mk (mockServerClient octocatBody 200)).service sampleRuntime)
    [⟨"PushEvent", ⟨1696947135, 0, 0⟩, ⟨"example/repo1"⟩⟩] Process.start (by decide)).1.trans
    (by decide)

/-- C7: when the call of the service returns an error, `PrintRecentActivity` writes nothing to
standard output, appends to standard error the logger's header followed by
`Error fetching activity: ` and the message of the error (and a line end if the message has
none), and exits with status 1, whatever the error. -/
theorem printRecentActivity_failure (rt : Runtime) (username : String) (service : GitHubService)
    (events : List GitHubEvent) (err : GoError) (p : Process)
    (h : service username = (events, some err)) :
    (PrintRecentActivity rt username service p).stdout = p.stdout
    ∧ (PrintRecentActivity rt username service p).stderr
        = p.stderr ++ rt.logHeader ++ ("Error fetching activity: " ++ err.Error)
          ++ (if ("Error fetching activity: " ++ err.Error).data.getLast? = some '\n' then ""
              else "\n")
    ∧ (PrintRecentActivity rt username service p).exited = some 1 := by
  simp only [PrintRecentActivity, h, Process.Fatalf, and_self]

/-- C7, witness: the status error of a 404 response, printed by a fresh process. -/
theorem printRecentActivity_failure_witness :
    (PrintRecentActivity sampleRuntime "nonexistent_user"
        ((DefaultGitHubService.mk (mockServerClient "\x7b\x7d" 404)).service sampleRuntime)
        Process.start).stdout = ""
    ∧ (PrintRecentActivity sampleRuntime "nonexistent_user"
        ((DefaultGitHubService.mk (mockServerClient "\x7b\x7d" 404)).service sampleRuntime)
        Process.start).stderr
      = "2024/01/01 00:00:00 Error fetching activity: GitHub API returned status: 404\n"
    ∧ (PrintRecentActivity sampleRuntime "nonexistent_user"
        ((DefaultGitHubService.mk (mockServerClient "\x7b\x7d" 404)).service sampleRuntime)
        Process.start).exited = some 1 := by
  have h := printRecentActivity_failure sampleRuntime "nonexistent_user"
    ((DefaultGitHubService.mk (mockServerClient "\x7b\x7d" 404)).service sampleRuntime)
    [] (.New "GitHub API returned status: 404") Process.start (by decide)
  exact ⟨h.1, h.2.1.trans (by decide), h.2.2⟩

/-- C6, counterexample: the event created at `2023-10-10T14:12:15+02:00` is printed with the
timestamp `2023-10-10 14:12:15`, whereas the UTC rendering of that instant is
`2023-10-10 12:12:15`. -/
theorem printRecentActivity_offset_not_utc :
    (PrintRecentActivity sampleRuntime "octocat"
        ((DefaultGitHubService.mk (mockServerClient offsetBody 200)).service sampleRuntime)
        Process.start).stdout
      = "Recent activity for user octocat:\n- PushEvent on example/repo1 at 2023-10-10 14:12:15\n"
    ∧ (parseRFC3339 "2023-10-10T14:12:15+02:00".data).map (fun t => t.UTC.Format)
      = some "2023-10-10 12:12:15" := by
  decide

/-- C6, amended: an event whose `created_at` is an RFC 3339 time (the text of a valid time, or
more generally a string the strict parser accepts) is decoded to that time, and the timestamp
`PrintRecentActivity` prints for it is the date and the clock written in the string itself, that
is, the wall clock in the offset the string carries: the first ten characters, a blank, and the
eight characters of the clock, of the form `dddd-dd-dd dd:dd:dd`. It is the UTC rendering when
that offset is zero. -/
theorem createdAt_printed_as_written (rt : Runtime) (raw : List Char) (cur t : Time)
    (ty : String) (rp : Repo)
    (h : (∃ stamp : Stamp, stamp.Valid ∧ raw = stamp.text ∧ t = stamp.time)
        ∨ parseRFC3339 raw = some t) :
    Time.UnmarshalJSON rt (.str raw) cur = .ok t
    ∧ t.Format = ⟨raw.take 10 ++ [' '] ++ (raw.drop 11).take 8⟩
    ∧ IsTimestampText t.Format.data
    ∧ eventLine ⟨ty, t, rp⟩
        = "- " ++ ty ++ " on " ++ rp.Name ++ " at "
          ++ ⟨raw.take 10 ++ [' '] ++ (raw.drop 11).take 8⟩ ++ "\n"
    ∧ (t.offset = 0 → t.Format = t.UTC.Format) := by
  have hp : parseRFC3339 raw = some t := by
    rcases h with ⟨stamp, hv, rfl, rfl⟩ | h
    · exact parseRFC3339_text stamp hv
    · exact h
  obtain ⟨hf, hshape⟩ := parseRFC3339_Format raw t hp
  refine ⟨by simp only [Time.UnmarshalJSON, hp], hf, by rw [hf]; exact hshape,
    by simp only [eventLine, hf], ?_⟩
  intro h0
  have : t.UTC = t := by
    cases t
    simp only [Time.UTC] at h0 ⊢
    rw [h0]
  rw [this]

/-- C6, witness: the time `2023-10-10T14:12:15+02:00`. -/
theorem createdAt_printed_as_written_witness :
    (Time.mk 1696939935 0 7200).Format = "2023-10-10 14:12:15" :=
  (createdAt_printed_as_written sampleRuntime "2023-10-10T14:12:15+02:00".data Time.zero
    ⟨1696939935, 0, 7200⟩ "PushEvent" ⟨"example/repo1"⟩
    (Or.inl ⟨⟨2023, 10, 10, 14, 12, 15, .east 2 0⟩, by decide, by decide, by decide⟩)).2.1

end GithubActivity
